import Mathlib

/-!
# Verification of the SNode tree core (taichi/ir/snode.cpp)

A shallow embedding of the structural-node ("SNode") tree construction and
query code in `src/taichi/ir/snode.cpp`.  Mutable C++ state is rendered
functionally:

* the tree is an inductive type (`SNode`), each node carrying its scalar
  fields in an `SNodeCore`;
* process-wide globals (the atomic id counter, the shared-exponent builder
  session) and the external field-expression environment live in a
  `BuilderState` threaded through every operation;
* per-node heap mutation through raw pointers (`exponent_users.push_back`,
  `expr->set_snode`) is rendered as state keyed by node / expression id;
* fatal `TI_ASSERT` / `TI_ERROR` failures are `Except.error`.
-/

namespace Taichi

/-- Fixed maximum number of axes (`taichi_max_num_indices`).
Modelled from the spec: the constant lives outside `src/`; the spec fixes a
bounded per-axis array ("fixed-size array, one Extractor per possible axis"). -/
def taichi_max_num_indices : Nat := 8

/-- Node kinds, from `SNodeType` (closed tagged variant per the spec). -/
inductive SNodeType where
  | root
  | dense
  | pointer
  | hash
  | bitmasked
  | dynamic
  | bit_struct
  | bit_array
  | place
  | undefined
deriving DecidableEq, Repr

/-- Primitive / custom scalar types that occur in this core.
Modelled from the spec: the type layer is external ("a factory capability
`get_primitive_int_type(bit_width, signed) -> Type` and a custom-float type
capability exposing an optional exponent `Type`"). -/
inductive SimpleType where
  | gen
  | int_type (bits : Nat) (signed : Bool)
  | real_type (bits : Nat)
deriving DecidableEq, Repr

/-- Element data types: either a simple scalar type or a custom floating-point
type with an optional exponent component.  Modelled from the spec (the
`CustomFloatType` class is external to `src/`). -/
inductive DataType where
  | simple (t : SimpleType)
  | custom_float (exponent : Option SimpleType)
deriving DecidableEq, Repr

/-- `CustomFloatType::get_exponent_type()`.  Modelled from the spec: a
custom-float type exposes an optional exponent type; other types have none. -/
def getExponentType : DataType → Option SimpleType
  | DataType.custom_float e => e
  | _ => none

/-- `TypeFactory::get_primitive_int_type(bits, signed)`.  Modelled from the
spec: the type factory is an external collaborator minting concrete bit-width
integer types. -/
def get_primitive_int_type (bits : Nat) (signed : Bool) : DataType :=
  DataType.simple (SimpleType.int_type bits signed)

/-- `needs_grad(dt)`.  Modelled from the spec: a primal field requires a
gradient counterpart exactly when its element type is a real (floating-point)
primitive type. -/
def needs_grad (dt : DataType) : Bool :=
  match dt with
  | DataType.simple (SimpleType.real_type _) => true
  | _ => false

/-- `bit::is_power_of_two`.  Modelled from the spec: a size is promoted only
"if not already" a power of two. -/
def isPowerOfTwo (v : Nat) : Bool :=
  v != 0 && 2 ^ Nat.log2 v == v

/-- `bit::least_pot_bound`: the least power of two that is `≥ v` (for `v ≥ 1`).
Modelled from the spec: "promoted to the least power of two ≥ itself". -/
def leastPotBound (v : Nat) : Nat := 2 ^ Nat.clog 2 v

/-- `bit::log2int` on a power of two.  Modelled from the spec:
`num_bits = log2(promoted_size)`. -/
def log2int (v : Nat) : Nat := Nat.log2 v

/-- Per-axis bit-field descriptor (`Extractor`), one slot per axis.
Modelled from the spec: `{active, num_bits, trailing_bits, num_elements}`
(its body lives in `snode.h`, outside `src/`). -/
structure Extractor where
  num_bits : Nat := 0
  trailing_bits : Nat := 0
  num_elements : Int := 0
  active : Bool := false
deriving DecidableEq, Repr

instance : Inhabited Extractor := ⟨{}⟩

/-- `Extractor::activate(num_bits)`: mark the slot active with the given
bit-width.  Modelled from the spec: "activate that axis's extractor at this
node with `num_bits = log2(promoted_size)`". -/
def Extractor.activate (e : Extractor) (bits : Nat) : Extractor :=
  { e with active := true, num_bits := bits }

/-- The scalar fields of one `SNode` (everything except the child list). -/
structure SNodeCore where
  id : Nat
  depth : Nat
  type : SNodeType
  extractors : List Extractor
  physical_index_position : List Int
  num_active_indices : Nat
  n : Int
  total_num_bits : Nat
  total_bit_start : Nat
  dt : DataType
  physical_type : Option DataType
  chunk_size : Int
  exp_snode : Option Nat
  owns_shared_exponent : Bool
  index_offsets : List Int
  is_path_all_dense : Bool
  has_ambient : Bool
  ambient_val : Int
  expr : Option Nat
  name : String
  node_type_name : String
  is_bit_level : Bool
deriving DecidableEq, Repr

/-- The tree: a core plus an ordered, exclusively-owned child list (`ch`). -/
inductive SNode where
  | mk (core : SNodeCore) (ch : List SNode) : SNode

def SNode.core : SNode → SNodeCore
  | SNode.mk c _ => c

def SNode.ch : SNode → List SNode
  | SNode.mk _ l => l

/-- The external field-expression capability (`GlobalVariableExpression`),
modelled from the spec: `{declared_type, identifier, is_primal, ambient_flag,
ambient_value, adjoint_reference, bound_node (settable once)}`.  Expressions
are referenced by index into the environment; `adjoint` is the index of the
pre-declared adjoint expression, `snode` the id of the bound node. -/
structure ExprData where
  dt : DataType := DataType.simple SimpleType.gen
  ident : String := ""
  is_primal : Bool := false
  has_ambient : Bool := false
  ambient_value : Int := 0
  adjoint : Option Nat := none
  snode : Option Nat := none
deriving DecidableEq, Repr

instance : Inhabited ExprData := ⟨{}⟩

/-- Process-wide mutable state threaded through the builder API: the atomic id
counter (`SNode::counter`), the shared-exponent session flags, the expression
environment, and the `exponent_users` back-lists.  The per-node C++ vector
`exponent_users` is heap state mutated through raw pointers, so it is rendered
here as an association list keyed by the exponent node's id (append order is
push order). -/
structure BuilderState where
  counter : Nat
  placing_shared_exp : Bool
  currently_placing_exp_snode : Option Nat
  currently_placing_exp_snode_dtype : Option SimpleType
  exprs : List ExprData
  exponent_users : List (Nat × Nat)
deriving Repr

/-- Environment lookup (dereferencing an `Expr` handle). -/
def getExpr (st : BuilderState) (eid : Nat) : ExprData :=
  st.exprs.getD eid default

/-- `expr->set_snode(&child)`: bind the expression to a node id. -/
def setSNodeBinding (st : BuilderState) (eid : Nat) (nid : Nat) : BuilderState :=
  { st with exprs := st.exprs.set eid { getExpr st eid with snode := some nid } }

/-- The `exponent_users` vector of the node with id `i`, in push order. -/
def usersOf (st : BuilderState) (i : Nat) : List Nat :=
  (st.exponent_users.filter (fun p => p.1 = i)).map (fun p => p.2)

/-- The `SNode(depth, t)` constructor: issue the next id from the counter and
value-initialize every field.  Default member values (`is_path_all_dense =
true`, inactive extractors, empty offsets) are modelled from the spec since
`snode.h` is outside `src/`; the assignments in the constructor body
(`physical_index_position` all `-1`, `dt = gen`, `has_ambient = false`) are
from the source. -/
def SNodeCore.new (id depth : Nat) (t : SNodeType) : SNodeCore :=
  { id := id
    depth := depth
    type := t
    extractors := List.replicate taichi_max_num_indices default
    physical_index_position := List.replicate taichi_max_num_indices (-1)
    num_active_indices := 0
    n := 0
    total_num_bits := 0
    total_bit_start := 0
    dt := DataType.simple SimpleType.gen
    physical_type := none
    chunk_size := 0
    exp_snode := none
    owns_shared_exponent := false
    index_offsets := []
    is_path_all_dense := true
    has_ambient := false
    ambient_val := 0
    expr := none
    name := ""
    node_type_name := "S" ++ toString id
    is_bit_level := false }

/-- `SNode::need_activation()`: the sparse kinds requiring activation. -/
def SNodeCore.need_activation (c : SNodeCore) : Bool :=
  c.type = SNodeType.pointer || c.type = SNodeType.hash ||
  c.type = SNodeType.bitmasked || c.type = SNodeType.dynamic

/-- `SNode::is_place()`. -/
def SNodeCore.is_place (c : SNodeCore) : Bool :=
  c.type = SNodeType.place

/-- `SNode::insert_children(t)`: append a fresh child of kind `t` at depth
`depth + 1`; its `is_path_all_dense` is the parent's flag conjoined with the
negation of the child's `need_activation()`.  Returns the new child's id. -/
def SNode.insert_children (st : BuilderState) (node : SNode) (t : SNodeType) :
    Except String (BuilderState × SNode × Nat) := do
  if t = SNodeType.root then throw "assertion failed: t != SNodeType::root"
  let c0 := SNodeCore.new st.counter (node.core.depth + 1) t
  let c := { c0 with is_path_all_dense := node.core.is_path_all_dense && !c0.need_activation }
  pure ({ st with counter := st.counter + 1 },
        SNode.mk node.core (node.ch ++ [SNode.mk c []]), c.id)

/-- Apply `f` to the core of the last child (the child just inserted). -/
def SNode.modifyLastChild (t : SNode) (f : SNodeCore → SNodeCore) : SNode :=
  match t with
  | SNode.mk core ch =>
      SNode.mk core
        (match ch.getLast? with
         | none => ch
         | some (SNode.mk lc lch) => ch.dropLast ++ [SNode.mk (f lc) lch])

/-- The effective per-axis size list after the broadcast step of
`create_node`: a singleton size list is replicated across all axes. -/
def effectiveSizes (indices : List Nat) (sizes : List Int) : List Int :=
  if sizes.length = 1 then List.replicate indices.length (sizes.headD 0) else sizes

/-- One size's promotion step in `create_node`: keep a power of two, promote
anything else to the least power of two above it. -/
def promoteSize (s : Int) : Nat :=
  if isPowerOfTwo s.toNat then s.toNat else leastPotBound s.toNat

/-- The size loop of `create_node`: starting from `n = 1`, assert each size
positive, promote it to a power of two when necessary, assert the promoted
size is a power of two, and multiply it into `n`. -/
def accumulateSizes (n : Int) : List Int → Except String Int
  | [] => Except.ok n
  | s :: rest =>
      if s ≤ 0 then Except.error "assertion failed: sizes[i] > 0"
      else if !isPowerOfTwo (promoteSize s) then
        Except.error "assertion failed: bit::is_power_of_two(s)"
      else accumulateSizes (n * (promoteSize s : Int)) rest

/-- The extractor loop of `create_node`: for each `(axis, size)` pair, activate
that axis's slot with `log2int(least_pot_bound(size))` bits and record the
original, unpromoted size as `num_elements`. -/
def activateExtractors (exts : List Extractor) : List (Nat × Int) → List Extractor
  | [] => exts
  | (ind, s) :: rest =>
      let e := (exts.getD ind default).activate (log2int (leastPotBound s.toNat))
      activateExtractors (exts.set ind { e with num_elements := s }) rest

/-- `SNode::create_node(indices, sizes, type)`: the general multi-axis node
factory.  Asserts the axis/size arity (or a broadcastable singleton size),
restricts `hash` children to callers at depth 0, inserts the child, then
computes its flattened extent `n` and per-axis extractors. -/
def SNode.create_node (st : BuilderState) (node : SNode) (indices : List Nat)
    (sizes : List Int) (t : SNodeType) : Except String (BuilderState × SNode × Nat) := do
  if !(indices.length = sizes.length || sizes.length = 1) then
    throw "assertion failed: indices.size() == sizes.size() || sizes.size() == 1"
  let sizes := effectiveSizes indices sizes
  if t = SNodeType.hash && node.core.depth != 0 then
    throw "hashed node must be child of root due to initialization memset limitation."
  let (st, node, cid) ← SNode.insert_children st node t
  let n ← accumulateSizes 1 sizes
  let node := node.modifyLastChild (fun c =>
    { c with n := n, extractors := activateExtractors c.extractors (indices.zip sizes) })
  pure (st, node, cid)

/-- `SNode::dense(indices, sizes)`: a dense child (layered on `create_node`). -/
def SNode.dense (st : BuilderState) (node : SNode) (indices : List Nat)
    (sizes : List Int) : Except String (BuilderState × SNode × Nat) :=
  SNode.create_node st node indices sizes SNodeType.dense

/-- `SNode::dynamic(axis, n, chunk_size)`: single-axis growable node storing
its growth granularity. -/
def SNode.dynamic (st : BuilderState) (node : SNode) (axis : Nat) (n : Int)
    (chunk : Int) : Except String (BuilderState × SNode × Nat) := do
  let (st, node, cid) ← SNode.create_node st node [axis] [n] SNodeType.dynamic
  pure (st, node.modifyLastChild (fun c => { c with chunk_size := chunk }), cid)

/-- `SNode::bit_struct(num_bits)`: zero-axis bit-packed container whose
physical type is an unsigned integer wide enough for `num_bits`. -/
def SNode.bit_struct (st : BuilderState) (node : SNode) (num_bits : Nat) :
    Except String (BuilderState × SNode × Nat) := do
  let (st, node, cid) ← SNode.create_node st node [] [] SNodeType.bit_struct
  pure (st, node.modifyLastChild (fun c =>
    { c with physical_type := some (get_primitive_int_type num_bits false) }), cid)

/-- `SNode::bit_array(indices, sizes, bits)`: like `create_node` but with a
`bits`-wide unsigned integer physical type. -/
def SNode.bit_array (st : BuilderState) (node : SNode) (indices : List Nat)
    (sizes : List Int) (bits : Nat) : Except String (BuilderState × SNode × Nat) := do
  let (st, node, cid) ← SNode.create_node st node indices sizes SNodeType.bit_array
  pure (st, node.modifyLastChild (fun c =>
    { c with physical_type := some (get_primitive_int_type bits false) }), cid)

/-- `SNode::set_index_offsets(offsets)`: set the per-axis origin shift, fatal
if already set, empty, or on a non-`place` node. -/
def SNodeCore.set_index_offsets (c : SNodeCore) (off : List Int) :
    Except String SNodeCore := do
  if !c.index_offsets.isEmpty then throw "assertion failed: index_offsets.empty()"
  if off.isEmpty then throw "assertion failed: !index_offsets_.empty()"
  if c.type != SNodeType.place then throw "assertion failed: type == SNodeType::place"
  pure { c with index_offsets := off }

/-- Apply an `Except`-valued core update to the last child. -/
def SNode.modifyLastChildE (t : SNode) (f : SNodeCore → Except String SNodeCore) :
    Except String SNode :=
  match t with
  | SNode.mk core ch =>
      match ch.getLast? with
      | none => pure (SNode.mk core ch)
      | some (SNode.mk lc lch) => do
          let lc' ← f lc
          pure (SNode.mk core (ch.dropLast ++ [SNode.mk lc' lch]))

/-- The exponent half of `SNode::place`: when the field's type is a custom
float with an exponent component, reuse the active session's exponent node
(fatal on an exponent-type mismatch) or create a fresh exponent `place` child,
recording it as the session's exponent when a session is active.  Returns the
exponent node's id (if any) along with the updated state and node. -/
def place_exp_step (st : BuilderState) (node : SNode) (expr : ExprData) :
    Except String (BuilderState × SNode × Option Nat) :=
  match getExponentType expr.dt with
  | some exp =>
      if st.placing_shared_exp && st.currently_placing_exp_snode.isSome then
        if st.currently_placing_exp_snode_dtype != some exp then
          Except.error "CustomFloatTypes with shared exponents must have exactly the same exponent type."
        else
          Except.ok (st, node, st.currently_placing_exp_snode)
      else do
        let (st, node, expId) ← SNode.insert_children st node SNodeType.place
        let node := node.modifyLastChild (fun c =>
          { c with dt := DataType.simple exp, name := expr.ident ++ "_exp" })
        let st :=
          if st.placing_shared_exp then
            { st with currently_placing_exp_snode := some expId,
                      currently_placing_exp_snode_dtype := some exp }
          else st
        pure (st, node, some expId)
  | none => Except.ok (st, node, (none : Option Nat))

/-- The value half of `SNode::place`: insert the `place` leaf for the field
itself, bind it bidirectionally, copy the ambient value, mark shared-exponent
ownership, link the exponent node and record this leaf as one of its users,
and record any index offsets. -/
def place_value_step (st : BuilderState) (node : SNode) (e : Nat)
    (expr : ExprData) (new_exp_snode : Option Nat) (offset : List Int) :
    Except String (BuilderState × SNode) := do
  let (st, node, childId) ← SNode.insert_children st node SNodeType.place
  let st := setSNodeBinding st e childId
  let node := node.modifyLastChild (fun c => { c with name := expr.ident })
  let node :=
    if expr.has_ambient then
      node.modifyLastChild (fun c =>
        { c with has_ambient := true, ambient_val := expr.ambient_value })
    else node
  let node := node.modifyLastChild (fun c => { c with expr := some e })
  let node :=
    if st.placing_shared_exp then
      node.modifyLastChild (fun c => { c with owns_shared_exponent := true })
    else node
  let node := node.modifyLastChild (fun c => { c with dt := expr.dt })
  let (st, node) :=
    match new_exp_snode with
    | some k =>
        ({ st with exponent_users := st.exponent_users ++ [(k, childId)] },
         node.modifyLastChild (fun c => { c with exp_snode := some k }))
    | none => (st, node)
  if !offset.isEmpty then
    let node ← node.modifyLastChildE (fun c => c.set_index_offsets offset)
    pure (st, node)
  else
    pure (st, node)

/-- The non-root branch of `SNode::place(expr, offset)`: bind a field
expression (`eid`; `none` renders a null / non-global expression handle, on
which the `is<GlobalVariableExpression>` assertion fails) to a fresh `place`
leaf, creating or reusing an exponent `place` leaf first when the field's type
is a custom float with an exponent component. -/
def SNode.place_inner (st : BuilderState) (node : SNode) (eid : Option Nat)
    (offset : List Int) : Except String (BuilderState × SNode) := do
  let some e := eid | throw "assertion failed: expr_.is<GlobalVariableExpression>()"
  let expr := getExpr st e
  if expr.snode.isSome then throw "This variable has been placed."
  let (st, node, new_exp_snode) ← place_exp_step st node expr
  place_value_step st node e expr new_exp_snode offset

/-- `SNode::place(expr, offset)`: on `root`, first insert a zero-axis `dense`
child and place into it (the redirected child is `dense`, so the recursive
call in the source takes the non-root branch, inlined here); otherwise place
directly. -/
def SNode.place (st : BuilderState) (node : SNode) (eid : Option Nat)
    (offset : List Int) : Except String (BuilderState × SNode) := do
  if node.core.type = SNodeType.root then
    let (st, node, _) ← SNode.dense st node [] []
    match node with
    | SNode.mk core ch =>
        match ch.getLast? with
        | none => throw "unreachable: dense child just inserted"
        | some c => do
            let (st, c') ← SNode.place_inner st c eid offset
            pure (st, SNode.mk core (ch.dropLast ++ [c']))
  else
    SNode.place_inner st node eid offset

/-- `SNode::begin_shared_exp_placement()`. -/
def begin_shared_exp_placement (st : BuilderState) : Except String BuilderState := do
  if st.placing_shared_exp then throw "assertion failed: !placing_shared_exp"
  if st.currently_placing_exp_snode.isSome then
    throw "assertion failed: currently_placing_exp_snode == nullptr"
  pure { st with placing_shared_exp := true }

/-- `SNode::end_shared_exp_placement()`. -/
def end_shared_exp_placement (st : BuilderState) : Except String BuilderState := do
  if !st.placing_shared_exp then throw "assertion failed: placing_shared_exp"
  if !st.currently_placing_exp_snode.isSome then
    throw "assertion failed: currently_placing_exp_snode != nullptr"
  pure { st with currently_placing_exp_snode := none, placing_shared_exp := false }

/-- `SNode::is_primal()`: fatal on a node with no bound field expression. -/
def SNode.is_primal (st : BuilderState) (c : SNodeCore) : Except String Bool := do
  let some e := c.expr | throw "assertion failed: expr.expr != nullptr"
  pure (getExpr st e).is_primal

/-- `SNode::has_grad()`: true iff the node is primal and its adjoint
expression exists and is already bound to some node.  (Reading the adjoint
dereferences the node's own expression, so a node with no bound expression
faults here, as in the source.) -/
def SNode.has_grad (st : BuilderState) (c : SNodeCore) : Except String Bool := do
  let some e := c.expr | throw "dereferenced null expression"
  let adjoint := (getExpr st e).adjoint
  let p ← SNode.is_primal st c
  pure (p && (match adjoint with
              | none => false
              | some a => (getExpr st a).snode.isSome))

/-- One child's test in the gradient-collection scan of `lazy_grad`, with the
source's short-circuit order: `type == place && is_primal() && needs_grad(dt)
&& !has_grad()`. -/
def shouldCollect (st : BuilderState) (c : SNodeCore) : Except String Bool := do
  if c.type = SNodeType.place then
    let p ← SNode.is_primal st c
    if p && needs_grad c.dt then
      let g ← SNode.has_grad st c
      pure (!g)
    else
      pure false
  else
    pure false

/-- The `new_grads` collection loop of `lazy_grad`: the adjoint expressions of
every `place` child that is primal, requires a gradient, and does not yet have
one, in child order. -/
def collectGrads (st : BuilderState) : List SNode → Except String (List (Option Nat))
  | [] => pure []
  | c :: cs => do
      let b ← shouldCollect st c.core
      let rest ← collectGrads st cs
      if b then
        pure ((match c.core.expr with
               | some e => (getExpr st e).adjoint
               | none => none) :: rest)
      else
        pure rest

/-- The placement loop of `lazy_grad`: `this->place(p, {})` for each collected
adjoint. -/
def placeGrads (st : BuilderState) (node : SNode) :
    List (Option Nat) → Except String (BuilderState × SNode)
  | [] => pure (st, node)
  | g :: gs => do
      let (st, node) ← SNode.place st node g []
      placeGrads st node gs

mutual

/-- `SNode::lazy_grad()`: no-op on `place` leaves; otherwise recurse into every
child first, then collect the adjoints of gradient-less primal `place`
children and place each back into this node. -/
def SNode.lazy_grad (st : BuilderState) : SNode → Except String (BuilderState × SNode)
  | SNode.mk core ch =>
      if core.type = SNodeType.place then pure (st, SNode.mk core ch)
      else do
        let (st, ch) ← lazyGradChildren st ch
        let grads ← collectGrads st ch
        placeGrads st (SNode.mk core ch) grads

/-- The child-recursion loop of `lazy_grad`, in child order. -/
def lazyGradChildren (st : BuilderState) :
    List SNode → Except String (BuilderState × List SNode)
  | [] => pure (st, [])
  | c :: cs => do
      let (st, c') ← SNode.lazy_grad st c
      let (st, cs') ← lazyGradChildren st cs
      pure (st, c' :: cs')

end

/-- The upward walk of `get_least_sparse_ancestor`: the chain is the node
itself followed by its ancestors (nearest first).  `none` renders the fatal
`TI_ASSERT(result)` when the walk steps past root. -/
def walkToSparse : List SNodeCore → Option (Option SNodeCore)
  | [] => none
  | c :: rest => if c.need_activation then some (some c) else walkToSparse rest

/-- `SNode::get_least_sparse_ancestor()`: `some none` renders the `nullptr`
result on an all-dense path; `some (some c)` the found sparse node; `none` the
fatal walk past root.  Parent links (valid only post-compilation) are rendered
as the explicit ancestor chain `ancestors` (nearest parent first). -/
def SNode.get_least_sparse_ancestor (self : SNodeCore) (ancestors : List SNodeCore) :
    Option (Option SNodeCore) :=
  if self.is_path_all_dense then some none
  else walkToSparse (self :: ancestors)

/-- `SNode::get_num_bits(physical_index)`: sum the axis's extractor bit-width
over the chain from the node up to root (the node itself first, as the source
loop walks `parent` pointers upward). -/
def SNode.get_num_bits (chain : List SNodeCore) (physical_index : Nat) : Nat :=
  match chain with
  | [] => 0
  | c :: rest =>
      (c.extractors.getD physical_index default).num_bits +
        SNode.get_num_bits rest physical_index

/-- `SNode::shape_along_axis(i)`: read the extractor at slot
`physical_index_position[i]` and return `num_elements * 2^trailing_bits`.
A negative (sentinel `-1`, i.e. never assigned) position or an out-of-range
access is undefined behavior in the source, rendered as `none`. -/
def SNode.shape_along_axis (c : SNodeCore) (i : Nat) : Option Int :=
  match c.physical_index_position.get? i with
  | none => none
  | some p =>
      if p < 0 then none
      else
        match c.extractors.get? p.toNat with
        | none => none
        | some ex => some (ex.num_elements * 2 ^ ex.trailing_bits)

mutual

/-- All root-to-node paths in a tree, as lists of cores (root first); one path
per node of the tree. -/
def rootPaths : SNode → List (List SNodeCore)
  | SNode.mk core ch => [core] :: (rootPathsList ch).map (fun p => core :: p)

def rootPathsList : List SNode → List (List SNodeCore)
  | [] => []
  | c :: cs => rootPaths c ++ rootPathsList cs

end

/-- Whether an `Except` result is a success. -/
def isOkE {α : Type} : Except String α → Bool
  | Except.ok _ => true
  | Except.error _ => false

mutual

/-- Apply a builder operation `f` at the unique node with id `i` (if present),
rebuilding the tree around the modified subtree.  This renders a C++ method
call through a pointer to an interior node. -/
def applyAt (i : Nat) (f : BuilderState → SNode → Except String (BuilderState × SNode))
    (st : BuilderState) : SNode → Except String (BuilderState × SNode)
  | SNode.mk core ch =>
      if core.id = i then f st (SNode.mk core ch)
      else do
        let (st', ch') ← applyAtList i f st ch
        pure (st', SNode.mk core ch')

def applyAtList (i : Nat) (f : BuilderState → SNode → Except String (BuilderState × SNode))
    (st : BuilderState) : List SNode → Except String (BuilderState × List SNode)
  | [] => pure (st, [])
  | c :: cs => do
      let (st', c') ← applyAt i f st c
      let (st'', cs') ← applyAtList i f st' cs
      pure (st'', c' :: cs')

end

/-- The public builder API calls, each directed at the node with a given id. -/
inductive Op where
  | insert_ch (target : Nat) (t : SNodeType)
  | create_nd (target : Nat) (indices : List Nat) (sizes : List Int) (t : SNodeType)
  | dense_nd (target : Nat) (indices : List Nat) (sizes : List Int)
  | dynamic_nd (target : Nat) (axis : Nat) (n : Int) (chunk : Int)
  | bit_struct_nd (target : Nat) (bits : Nat)
  | bit_array_nd (target : Nat) (indices : List Nat) (sizes : List Int) (bits : Nat)
  | place_op (target : Nat) (eid : Option Nat) (offset : List Int)
  | lazy_grad_op (target : Nat)
  | begin_shared
  | end_shared

/-- Interpret one builder call on the whole tree. -/
def applyOp (st : BuilderState) (t : SNode) : Op → Except String (BuilderState × SNode)
  | Op.insert_ch tg k =>
      applyAt tg (fun st n => do
        let (st, n, _) ← SNode.insert_children st n k; pure (st, n)) st t
  | Op.create_nd tg indices sizes k =>
      applyAt tg (fun st n => do
        let (st, n, _) ← SNode.create_node st n indices sizes k; pure (st, n)) st t
  | Op.dense_nd tg indices sizes =>
      applyAt tg (fun st n => do
        let (st, n, _) ← SNode.dense st n indices sizes; pure (st, n)) st t
  | Op.dynamic_nd tg axis n chunk =>
      applyAt tg (fun st nd => do
        let (st, nd, _) ← SNode.dynamic st nd axis n chunk; pure (st, nd)) st t
  | Op.bit_struct_nd tg bits =>
      applyAt tg (fun st n => do
        let (st, n, _) ← SNode.bit_struct st n bits; pure (st, n)) st t
  | Op.bit_array_nd tg indices sizes bits =>
      applyAt tg (fun st n => do
        let (st, n, _) ← SNode.bit_array st n indices sizes bits; pure (st, n)) st t
  | Op.place_op tg eid offset =>
      applyAt tg (fun st n => SNode.place st n eid offset) st t
  | Op.lazy_grad_op tg =>
      applyAt tg (fun st n => SNode.lazy_grad st n) st t
  | Op.begin_shared => do
      let st ← begin_shared_exp_placement st; pure (st, t)
  | Op.end_shared => do
      let st ← end_shared_exp_placement st; pure (st, t)

/-- Run a sequence of builder calls. -/
def runOps (st : BuilderState) (t : SNode) : List Op → Except String (BuilderState × SNode)
  | [] => pure (st, t)
  | op :: ops => do
      let (st, t) ← applyOp st t op
      runOps st t ops

/-- The initial builder state: the root node has consumed id 0; the
shared-exponent session is inactive; the field-expression environment is the
externally-declared `env`. -/
def initState (env : List ExprData) : BuilderState :=
  ⟨1, false, none, none, env, []⟩

/-- The root node as first constructed (`SNode(0, SNodeType::root)`). -/
def initRoot : SNode := SNode.mk (SNodeCore.new 0 0 SNodeType.root) []

/-- The structural invariant behind `is_path_all_dense`: below a path whose
conjoined density flag is `b`, every node's stored flag equals `b` conjoined
with the negation of its own `need_activation()`. -/
inductive DenseOk : Bool → SNode → Prop where
  | mk : ∀ (b : Bool) (core : SNodeCore) (ch : List SNode),
      core.is_path_all_dense = (b && !core.need_activation) →
      (∀ c ∈ ch, DenseOk core.is_path_all_dense c) →
      DenseOk b (SNode.mk core ch)

/-- A root-to-node path is flag-consistent when the final node's stored
`is_path_all_dense` is true iff no node on the path needs activation. -/
def flagConsistent (p : List SNodeCore) : Prop :=
  ∀ c ∈ p.getLast?, c.is_path_all_dense = p.all (fun s => !s.need_activation)

/-- Every root-to-node path of the tree is flag-consistent. -/
def flagSpec (t : SNode) : Prop :=
  ∀ p ∈ rootPaths t, flagConsistent p

/-- A tree operation preserves the density invariant under every ambient
flag. -/
def PreservesDense
    (f : BuilderState → SNode → Except String (BuilderState × SNode)) : Prop :=
  ∀ (b : Bool) (st : BuilderState) (t : SNode) (st' : BuilderState) (t' : SNode),
    DenseOk b t → f st t = Except.ok (st', t') → DenseOk b t'


/-- The core of the child produced by a successful `create_node` call:
the fresh constructor state, the incrementally computed density flag, the
power-of-two-promoted extent and the activated extractors. -/
def newChildCore (st : BuilderState) (node : SNode) (indices : List Nat)
    (sizes : List Int) (t : SNodeType) : SNodeCore :=
  let c0 := SNodeCore.new st.counter (node.core.depth + 1) t
  let c := { c0 with is_path_all_dense := node.core.is_path_all_dense && !c0.need_activation }
  let eff := effectiveSizes indices sizes
  { c with
    n := (eff.map (fun s => ((leastPotBound s.toNat : Nat) : Int))).prod
    extractors := activateExtractors c.extractors (indices.zip eff) }

/-- Environment well-formedness for gradient mirroring, modelled from the
spec: adjoint field expressions are minted by the external field-declaration
layer as non-primal shadows of their primals ("every primal leaf may acquire a
shadow gradient leaf"), are valid references, and carry plain (exponent-free)
element types. -/
def envOkB (st : BuilderState) : Bool :=
  st.exprs.all (fun e =>
    match e.adjoint with
    | none => true
    | some a =>
        decide (a < st.exprs.length) && !(getExpr st a).is_primal &&
          (getExponentType (getExpr st a).dt).isNone)

/-- The state of a (sub)tree on which `lazy_grad` has nothing left to do:
`place` leaves are ignored by `lazy_grad`, and any other node must have an
empty gradient-collection scan and only done children. -/
inductive GradsDone : BuilderState → SNode → Prop where
  | place : ∀ (st : BuilderState) (core : SNodeCore) (ch : List SNode),
      core.type = SNodeType.place → GradsDone st (SNode.mk core ch)
  | node : ∀ (st : BuilderState) (core : SNodeCore) (ch : List SNode),
      core.type ≠ SNodeType.place →
      collectGrads st ch = Except.ok [] →
      (∀ c ∈ ch, GradsDone st c) → GradsDone st (SNode.mk core ch)

/-- The environment of `st'` refines that of `st`: same length, identical
`is_primal`/`adjoint`/`dt` data, and every existing node binding preserved
(bindings are only ever added, never removed). -/
def EnvSim (st st' : BuilderState) : Prop :=
  st'.exprs.length = st.exprs.length ∧
  ∀ i : Nat, (getExpr st' i).is_primal = (getExpr st i).is_primal ∧
    (getExpr st' i).adjoint = (getExpr st i).adjoint ∧
    (getExpr st' i).dt = (getExpr st i).dt ∧
    (∀ k, (getExpr st i).snode = some k → (getExpr st' i).snode = some k)

/-- The environment step performed by a successful `place` of expression `a`:
every other expression is untouched, and `a` keeps its data but becomes
bound. -/
def BindsOnly (st st' : BuilderState) (a : Nat) : Prop :=
  st'.exprs.length = st.exprs.length ∧
  (∀ i, i ≠ a → getExpr st' i = getExpr st i) ∧
  (getExpr st' a).is_primal = (getExpr st a).is_primal ∧
  (getExpr st' a).adjoint = (getExpr st a).adjoint ∧
  (getExpr st' a).dt = (getExpr st a).dt ∧
  (getExpr st' a).snode.isSome = true

/-! ### Concrete builder states and trees used by the witnesses -/

/-- A fresh builder state with an empty expression environment. -/
def st0 : BuilderState := ⟨1, false, none, none, [], []⟩

/-- A freshly constructed root node. -/
def root0 : SNode := SNode.mk (SNodeCore.new 0 0 SNodeType.root) []

/-- A dense node at depth 1, as a caller for depth-sensitive checks. -/
def denseDepth1 : SNode := SNode.mk (SNodeCore.new 1 1 SNodeType.dense) []

/-- An 8-bit unsigned exponent type shared by two custom-float fields. -/
def expType0 : SimpleType := SimpleType.int_type 8 false

/-- Two custom-float field expressions with the same exponent type. -/
def envC : List ExprData :=
  [ { dt := DataType.custom_float (some expType0), ident := "x" },
    { dt := DataType.custom_float (some expType0), ident := "y" } ]

/-- A builder state inside an active shared-exponent session in which no
exponent node has been created yet. -/
def stC : BuilderState := ⟨2, true, none, none, envC, []⟩

/-- A primal real field (index 0) with its pre-declared adjoint (index 1). -/
def envG : List ExprData :=
  [ { dt := DataType.simple (SimpleType.real_type 32), ident := "u",
      is_primal := true, adjoint := some 1 },
    { dt := DataType.simple (SimpleType.real_type 32), ident := "u_grad" } ]

/-- A builder state carrying `envG` (ids 0..2 already issued). -/
def stG : BuilderState := ⟨3, false, none, none, envG, []⟩

/-- `root -> dense -> place(u)`: a placed primal field awaiting `lazy_grad`. -/
def treeG : SNode :=
  SNode.mk (SNodeCore.new 0 0 SNodeType.root)
    [SNode.mk (SNodeCore.new 1 1 SNodeType.dense)
      [SNode.mk { SNodeCore.new 2 2 SNodeType.place with
                    expr := some 0, name := "u",
                    dt := DataType.simple (SimpleType.real_type 32) } []]]

/-- A core whose axis 0 maps to extractor slot 2 holding 5 elements with 3
trailing bits. -/
def coreShape : SNodeCore :=
  { SNodeCore.new 4 1 SNodeType.dense with
      physical_index_position := [2, -1, -1, -1, -1, -1, -1, -1],
      extractors := (List.replicate taichi_max_num_indices (default : Extractor)).set 2
        { num_bits := 3, trailing_bits := 3, num_elements := 5, active := true } }

/-- A sparse (pointer) core with an activated axis-0 extractor of 2 bits. -/
def corePtr : SNodeCore :=
  { SNodeCore.new 5 1 SNodeType.pointer with
      is_path_all_dense := false,
      extractors := (List.replicate taichi_max_num_indices (default : Extractor)).set 0
        { num_bits := 2, trailing_bits := 0, num_elements := 4, active := true } }

/-- A dense core on a sparse path with an activated axis-0 extractor of 3
bits. -/
def coreDenseBelow : SNodeCore :=
  { SNodeCore.new 6 2 SNodeType.dense with
      is_path_all_dense := false,
      extractors := (List.replicate taichi_max_num_indices (default : Extractor)).set 0
        { num_bits := 3, trailing_bits := 0, num_elements := 8, active := true } }

/-- `root -> pointer -> dense`, with parent links rendered by nesting. -/
def treeQ : SNode :=
  SNode.mk (SNodeCore.new 0 0 SNodeType.root)
    [SNode.mk corePtr [SNode.mk coreDenseBelow []]]

/-! ## Supporting lemmas -/

theorem getD_set_ne {α : Type} [Inhabited α] (l : List α) (a : α) {m n : Nat}
    (h : m ≠ n) : (l.set m a).getD n default = l.getD n default := by
  simp [List.getD_eq_getElem?_getD, List.getElem?_set_ne h]

theorem getD_set_eq_of_lt {α : Type} [Inhabited α] (l : List α) (a : α) {n : Nat}
    (h : n < l.length) : (l.set n a).getD n default = a := by
  simp [List.getD_eq_getElem?_getD, List.getElem?_set_eq_of_lt a h]

theorem isPowerOfTwo_two_pow (k : Nat) : isPowerOfTwo (2 ^ k) = true := by
  simp only [isPowerOfTwo, Nat.log2_eq_log_two, Nat.log_pow one_lt_two,
    Bool.and_eq_true, bne_iff_ne, ne_eq, beq_iff_eq]
  exact ⟨(Nat.pow_pos (by norm_num)).ne', trivial⟩

theorem isPowerOfTwo_iff (v : Nat) : isPowerOfTwo v = true ↔ ∃ k, v = 2 ^ k := by
  constructor
  · intro h
    simp only [isPowerOfTwo, Bool.and_eq_true, bne_iff_ne, ne_eq, beq_iff_eq] at h
    exact ⟨Nat.log2 v, h.2.symm⟩
  · rintro ⟨k, rfl⟩
    exact isPowerOfTwo_two_pow k

theorem leastPotBound_eq_self {v : Nat} (h : isPowerOfTwo v = true) :
    leastPotBound v = v := by
  obtain ⟨k, rfl⟩ := (isPowerOfTwo_iff v).1 h
  simp [leastPotBound, Nat.clog_pow 2 k one_lt_two]

/-- `leastPotBound` really is the least power of two ≥ its argument. -/
theorem leastPotBound_is_least (v : Nat) :
    v ≤ leastPotBound v ∧ isPowerOfTwo (leastPotBound v) = true ∧
      ∀ m, v ≤ m → isPowerOfTwo m = true → leastPotBound v ≤ m := by
  refine ⟨Nat.le_pow_clog one_lt_two v, isPowerOfTwo_two_pow _, ?_⟩
  intro m hvm hm
  obtain ⟨k, rfl⟩ := (isPowerOfTwo_iff m).1 hm
  exact Nat.pow_le_pow_right (by norm_num) ((Nat.le_pow_iff_clog_le one_lt_two).1 hvm)

theorem promoteSize_eq (s : Int) : promoteSize s = leastPotBound s.toNat := by
  unfold promoteSize
  by_cases h : isPowerOfTwo s.toNat = true
  · rw [if_pos h, leastPotBound_eq_self h]
  · rw [if_neg h]

theorem accumulateSizes_ok : ∀ (l : List Int) (n : Int), (∀ s ∈ l, 0 < s) →
    accumulateSizes n l =
      Except.ok (n * (l.map (fun s => ((leastPotBound s.toNat : Nat) : Int))).prod)
  | [], n, _ => by simp [accumulateSizes]
  | s :: rest, n, hpos => by
      have hs : 0 < s := hpos s (List.mem_cons_self _ _)
      have h1 : ¬ s ≤ 0 := not_le.mpr hs
      rw [accumulateSizes, if_neg h1, promoteSize_eq,
        (leastPotBound_is_least s.toNat).2.1]
      simp only [Bool.not_true, Bool.false_eq_true, if_false]
      rw [accumulateSizes_ok rest _ (fun x hx => hpos x (List.mem_cons_of_mem _ hx))]
      simp [List.map_cons, List.prod_cons, mul_assoc]

theorem accumulateSizes_err : ∀ (l : List Int) (n : Int), (∃ s ∈ l, s ≤ 0) →
    ∃ msg, accumulateSizes n l = Except.error msg
  | [], _, h => absurd h (by simp)
  | s :: rest, n, h => by
      by_cases hs : s ≤ 0
      · exact ⟨_, by rw [accumulateSizes, if_pos hs]⟩
      · obtain ⟨x, hx, hxle⟩ := h
        rcases List.mem_cons.1 hx with rfl | hx
        · exact absurd hxle hs
        · rw [accumulateSizes, if_neg hs, promoteSize_eq,
            (leastPotBound_is_least s.toNat).2.1]
          simp only [Bool.not_true, Bool.false_eq_true, if_false]
          exact accumulateSizes_err rest _ ⟨x, hx, hxle⟩

theorem activateExtractors_length : ∀ (pairs : List (Nat × Int)) (exts : List Extractor),
    (activateExtractors exts pairs).length = exts.length
  | [], _ => rfl
  | _ :: rest, exts => by
      rw [activateExtractors, activateExtractors_length rest, List.length_set]

theorem activateExtractors_getD_not_mem :
    ∀ (pairs : List (Nat × Int)) (exts : List Extractor) (i : Nat),
    i ∉ pairs.map Prod.fst →
    (activateExtractors exts pairs).getD i default = exts.getD i default
  | [], _, _, _ => rfl
  | q :: rest, exts, i, h => by
      simp only [List.map_cons, List.mem_cons, not_or] at h
      rw [activateExtractors, activateExtractors_getD_not_mem rest _ _ h.2,
        getD_set_ne _ _ (fun hh => h.1 hh.symm)]

theorem activateExtractors_getD_mem :
    ∀ (pairs : List (Nat × Int)) (exts : List Extractor),
    (pairs.map Prod.fst).Nodup →
    ∀ p ∈ pairs, p.1 < exts.length →
    (activateExtractors exts pairs).getD p.1 default =
      { (exts.getD p.1 default).activate (log2int (leastPotBound p.2.toNat)) with
          num_elements := p.2 }
  | [], _, _, p, hp, _ => absurd hp (by simp)
  | q :: rest, exts, hnodup, p, hp, hlen => by
      simp only [List.map_cons, List.nodup_cons] at hnodup
      rcases List.mem_cons.1 hp with rfl | hp
      · rw [activateExtractors,
          activateExtractors_getD_not_mem rest _ _ hnodup.1,
          getD_set_eq_of_lt _ _ hlen]
      · rw [activateExtractors]
        have hne : q.1 ≠ p.1 := by
          intro hh
          exact hnodup.1 (hh ▸ List.mem_map_of_mem Prod.fst hp)
        rw [activateExtractors_getD_mem rest _ hnodup.2 p hp
              (by rw [List.length_set]; exact hlen),
          getD_set_ne _ _ hne]

/-- A successful `create_node` call appends exactly one child, whose core is
`newChildCore`, and returns the pre-call counter as the new child's id. -/
theorem create_node_ok (st : BuilderState) (node : SNode) (indices : List Nat)
    (sizes : List Int) (t : SNodeType)
    (harity : indices.length = sizes.length ∨ sizes.length = 1)
    (hpos : ∀ s ∈ effectiveSizes indices sizes, 0 < s)
    (ht : t ≠ SNodeType.root)
    (hhash : t = SNodeType.hash → node.core.depth = 0) :
    SNode.create_node st node indices sizes t =
      Except.ok ({ st with counter := st.counter + 1 },
        SNode.mk node.core
          (node.ch ++ [SNode.mk (newChildCore st node indices sizes t) []]),
        st.counter) := by
  have h1 : (indices.length = sizes.length || sizes.length = 1) = true := by
    rcases harity with h | h <;> simp [h]
  have h2 : (t = SNodeType.hash && node.core.depth != 0) = false := by
    by_cases h : t = SNodeType.hash
    · simp [h, hhash h]
    · simp [h]
  simp only [SNode.create_node, h1, Bool.not_true, Bool.false_eq_true, if_false,
    h2, SNode.insert_children, if_neg ht, accumulateSizes_ok _ _ hpos, one_mul]
  simp only [bind, Except.bind, pure, Except.pure, SNode.modifyLastChild,
    List.getLast?_concat, List.dropLast_concat, newChildCore]
  rfl

theorem effectiveSizes_length (indices : List Nat) (sizes : List Int)
    (harity : indices.length = sizes.length ∨ sizes.length = 1) :
    (effectiveSizes indices sizes).length = indices.length := by
  unfold effectiveSizes
  by_cases h : sizes.length = 1
  · simp [h]
  · rcases harity with h' | h'
    · simp [if_neg h, h']
    · exact absurd h' h

/-- Any `create_node` call whose effective (broadcast) size list contains a
nonpositive entry fails. -/
theorem create_node_err_nonpositive (st : BuilderState) (node : SNode)
    (indices : List Nat) (sizes : List Int) (t : SNodeType)
    (hbad : ∃ s ∈ effectiveSizes indices sizes, s ≤ 0) :
    ∃ msg, SNode.create_node st node indices sizes t = Except.error msg := by
  obtain ⟨msg0, hacc⟩ := accumulateSizes_err (effectiveSizes indices sizes) 1 hbad
  simp only [SNode.create_node, SNode.insert_children]
  by_cases h1 : (indices.length = sizes.length || sizes.length = 1) = true
  · simp only [h1, Bool.not_true, Bool.false_eq_true, if_false]
    by_cases h2 : (t = SNodeType.hash && node.core.depth != 0) = true
    · simp only [h2, if_true]
      exact ⟨_, rfl⟩
    · rw [Bool.not_eq_true] at h2
      simp only [h2, Bool.false_eq_true, if_false]
      by_cases h3 : t = SNodeType.root
      · simp only [if_pos h3]
        exact ⟨_, rfl⟩
      · simp only [if_neg h3, bind, Except.bind, pure, Except.pure, hacc]
        exact ⟨_, rfl⟩
  · rw [Bool.not_eq_true] at h1
    simp only [h1, Bool.not_false, if_true]
    exact ⟨_, rfl⟩

/-! ## Claims -/

/-- C9 (counterexample): the claim says any size list containing a
nonpositive size makes `create_node` fail, but with an empty axis list a
singleton nonpositive size list is broadcast to zero axes, the size loop never
runs, and the call succeeds. -/
theorem create_node_nonpositive_size_counterexample :
    isOkE (SNode.create_node st0 root0 [] [-1] SNodeType.dense) = true := by decide

/-- C9 (amended): `create_node` fails iff judged on the *effective* size list
(after broadcasting a singleton size over the axis list): any nonpositive
effective size is a fatal assertion failure, and when every effective size is
positive (and the other preconditions hold) the assertions are unreachable and
the call succeeds. -/
theorem create_node_size_positivity :
    (∀ (st : BuilderState) (node : SNode) (indices : List Nat) (sizes : List Int)
       (t : SNodeType), (∃ s ∈ effectiveSizes indices sizes, s ≤ 0) →
       ∃ msg, SNode.create_node st node indices sizes t = Except.error msg) ∧
    (∀ (st : BuilderState) (node : SNode) (indices : List Nat) (sizes : List Int)
       (t : SNodeType), (∀ s ∈ effectiveSizes indices sizes, 0 < s) →
       (indices.length = sizes.length ∨ sizes.length = 1) →
       t ≠ SNodeType.root → (t = SNodeType.hash → node.core.depth = 0) →
       ∃ r, SNode.create_node st node indices sizes t = Except.ok r) := by
  constructor
  · exact fun st node indices sizes t hbad =>
      create_node_err_nonpositive st node indices sizes t hbad
  · intro st node indices sizes t hpos harity ht hhash
    exact ⟨_, create_node_ok st node indices sizes t harity hpos ht hhash⟩

theorem create_node_size_positivity_witness :
    (∃ msg, SNode.create_node st0 root0 [0] [-1] SNodeType.dense = Except.error msg) ∧
    (∃ r, SNode.create_node st0 root0 [0] [3] SNodeType.dense = Except.ok r) :=
  ⟨create_node_size_positivity.1 st0 root0 [0] [-1] SNodeType.dense (by decide),
   create_node_size_positivity.2 st0 root0 [0] [3] SNodeType.dense (by decide)
     (by decide) (by decide) (by decide)⟩

/-- C6: creating a `hash`-kind node on a caller at depth > 0 always fails
(the structural check precedes the child insertion in the source), and on a
caller at depth 0 it succeeds given otherwise-valid arguments. -/
theorem create_node_hash_depth :
    (∀ (st : BuilderState) (node : SNode) (indices : List Nat) (sizes : List Int),
       node.core.depth ≠ 0 →
       ∃ msg, SNode.create_node st node indices sizes SNodeType.hash = Except.error msg) ∧
    (∀ (st : BuilderState) (node : SNode) (indices : List Nat) (sizes : List Int),
       node.core.depth = 0 →
       (indices.length = sizes.length ∨ sizes.length = 1) →
       (∀ s ∈ effectiveSizes indices sizes, 0 < s) →
       ∃ r, SNode.create_node st node indices sizes SNodeType.hash = Except.ok r) := by
  constructor
  · intro st node indices sizes hdepth
    simp only [SNode.create_node]
    by_cases h1 : (indices.length = sizes.length || sizes.length = 1) = true
    · simp only [h1, Bool.not_true, Bool.false_eq_true, if_false]
      have h2 : (decide True && node.core.depth != 0) = true := by
        simp [hdepth]
      simp only [h2, if_true]
      exact ⟨_, rfl⟩
    · rw [Bool.not_eq_true] at h1
      simp only [h1, Bool.not_false, if_true]
      exact ⟨_, rfl⟩
  · intro st node indices sizes hdepth harity hpos
    exact ⟨_, create_node_ok st node indices sizes SNodeType.hash harity hpos
      (by decide) (fun _ => hdepth)⟩

theorem create_node_hash_depth_witness :
    (∃ msg, SNode.create_node st0 denseDepth1 [0] [4] SNodeType.hash = Except.error msg) ∧
    (∃ r, SNode.create_node st0 root0 [0] [4] SNodeType.hash = Except.ok r) :=
  ⟨create_node_hash_depth.1 st0 denseDepth1 [0] [4] (by decide),
   create_node_hash_depth.2 st0 root0 [0] [4] (by decide) (by decide) (by decide)⟩

/-- C7: placing a field expression that is already bound to a node, on any
non-root node, fails with the "already placed" error; the check precedes any
child or exponent-node insertion in the source, so nothing is added to the
tree (the failing call returns no modified tree at all). -/
theorem place_already_placed (st : BuilderState) (node : SNode) (e : Nat) (k : Nat)
    (offset : List Int) (hroot : node.core.type ≠ SNodeType.root)
    (hbound : (getExpr st e).snode = some k) :
    SNode.place st node (some e) offset =
      Except.error "This variable has been placed." := by
  simp only [SNode.place, if_neg hroot, SNode.place_inner, place_exp_step,
    place_value_step, hbound, Option.isSome_some, if_true]
  rfl

theorem place_already_placed_witness :
    SNode.place ⟨2, false, none, none, [{ ident := "x", snode := some 1 }], []⟩
        denseDepth1 (some 0) [] =
      Except.error "This variable has been placed." :=
  place_already_placed _ denseDepth1 0 1 [] (by decide) rfl

/-- C10: `shape_along_axis` reads the extractor at
`physical_index_position[i]`; on a freshly constructed node every slot holds
the sentinel `-1`, so the access is undefined (`none`); it is undefined
whenever the slot is negative, and under the precondition
`physical_index_position[i] ≥ 0` (with the slot in range) it returns
`num_elements * 2^trailing_bits` of that extractor. -/
theorem shape_along_axis_defined :
    (∀ (id depth : Nat) (t : SNodeType) (i : Nat),
        SNode.shape_along_axis (SNodeCore.new id depth t) i = none) ∧
    (∀ (c : SNodeCore) (i : Nat) (p : Int),
        c.physical_index_position.get? i = some p → p < 0 →
        SNode.shape_along_axis c i = none) ∧
    (∀ (c : SNodeCore) (i : Nat) (p : Int) (ex : Extractor),
        c.physical_index_position.get? i = some p → 0 ≤ p →
        c.extractors.get? p.toNat = some ex →
        SNode.shape_along_axis c i = some (ex.num_elements * 2 ^ ex.trailing_bits)) := by
  refine ⟨?_, ?_, ?_⟩
  · intro id depth t i
    by_cases h : i < taichi_max_num_indices
    · simp [SNode.shape_along_axis, SNodeCore.new, List.get?_eq_getElem?,
        List.getElem?_replicate, h]
    · simp [SNode.shape_along_axis, SNodeCore.new, List.get?_eq_getElem?,
        List.getElem?_replicate, h]
  · intro c i p hget hneg
    rw [List.get?_eq_getElem?] at hget
    simp [SNode.shape_along_axis, hget, hneg]
  · intro c i p ex hget hpos hex
    rw [List.get?_eq_getElem?] at hget
    rw [List.get?_eq_getElem?] at hex
    simp [SNode.shape_along_axis, hget, not_lt.mpr hpos, hex]

theorem shape_along_axis_defined_witness :
    SNode.shape_along_axis coreShape 0 = some 40 ∧
    SNode.shape_along_axis coreShape 1 = none := by
  constructor
  · have := shape_along_axis_defined.2.2 coreShape 0 2
      { num_bits := 3, trailing_bits := 3, num_elements := 5, active := true }
      (by decide) (by decide) (by decide)
    exact this.trans (by decide)
  · exact shape_along_axis_defined.2.1 coreShape 1 (-1) (by decide) (by decide)

theorem get_num_bits_eq_sum (a : Nat) :
    ∀ l : List SNodeCore, SNode.get_num_bits l a =
      (l.map (fun c => (c.extractors.getD a default).num_bits)).sum
  | [] => rfl
  | c :: rest => by
      rw [SNode.get_num_bits, get_num_bits_eq_sum a rest, List.map_cons, List.sum_cons]

/-- C8: for every node of a tree (its compiled parent chain rendered as the
reversed root-to-node path) and every physical axis, `get_num_bits` equals the
sum of that axis's extractor bit-widths over the whole root-to-node path. -/
theorem get_num_bits_path_sum (t : SNode) (p : List SNodeCore) (a : Nat)
    (hp : p ∈ rootPaths t) (ha : a < taichi_max_num_indices) :
    SNode.get_num_bits p.reverse a =
      (p.map (fun c => (c.extractors.getD a default).num_bits)).sum := by
  rw [get_num_bits_eq_sum, List.map_reverse, List.sum_reverse]

theorem get_num_bits_path_sum_witness :
    SNode.get_num_bits
        [SNodeCore.new 0 0 SNodeType.root, corePtr, coreDenseBelow].reverse 0 = 5 := by
  have := get_num_bits_path_sum treeQ
    [SNodeCore.new 0 0 SNodeType.root, corePtr, coreDenseBelow] 0 (by decide) (by decide)
  exact this.trans (by decide)

theorem walkToSparse_eq_find? :
    ∀ l : List SNodeCore, (∃ x ∈ l, x.need_activation = true) →
      walkToSparse l = some (l.find? (fun c => c.need_activation))
  | [], h => absurd h (by simp)
  | c :: rest, h => by
      by_cases hc : c.need_activation = true
      · simp [walkToSparse, hc, List.find?_cons_of_pos]
      · have hrest : ∃ x ∈ rest, x.need_activation = true := by
          obtain ⟨x, hx, hxa⟩ := h
          rcases List.mem_cons.1 hx with rfl | hx
          · exact absurd hxa hc
          · exact ⟨x, hx, hxa⟩
        rw [Bool.not_eq_true] at hc
        simp [walkToSparse, hc, List.find?_cons, walkToSparse_eq_find? rest hrest]

/-- C5: on a flag-consistent chain (the stored `is_path_all_dense` agrees with
the path's kinds, which construction guarantees), `get_least_sparse_ancestor`
returns null exactly on all-dense paths and otherwise the *first* node needing
activation on the upward walk from self (self included) — hence never a node
strictly below the nearest sparse node, and the fatal walk past root is
unreachable. -/
theorem get_least_sparse_ancestor_correct (self : SNodeCore) (anc : List SNodeCore)
    (hcons : self.is_path_all_dense =
      (self :: anc).all (fun c => !c.need_activation)) :
    SNode.get_least_sparse_ancestor self anc =
      some ((self :: anc).find? (fun c => c.need_activation)) := by
  unfold SNode.get_least_sparse_ancestor
  by_cases hd : self.is_path_all_dense = true
  · rw [if_pos hd]
    have hall := hd ▸ hcons
    have : ∀ x ∈ self :: anc, ¬ x.need_activation = true := by
      intro x hx
      have := List.all_eq_true.1 hall.symm x hx
      simp at this
      simp [this]
    rw [List.find?_eq_none.2 this]
  · rw [if_neg hd]
    rw [Bool.not_eq_true] at hd
    have hfalse : (self :: anc).all (fun c => !c.need_activation) = false :=
      hcons ▸ hd
    have : ∃ x ∈ self :: anc, x.need_activation = true := by
      obtain ⟨x, hx, hxa⟩ := List.all_eq_false.1 hfalse
      refine ⟨x, hx, ?_⟩
      simpa using hxa
    exact walkToSparse_eq_find? _ this

theorem get_least_sparse_ancestor_correct_witness :
    SNode.get_least_sparse_ancestor coreDenseBelow
        [corePtr, SNodeCore.new 0 0 SNodeType.root] = some (some corePtr) ∧
    SNode.get_least_sparse_ancestor (SNodeCore.new 9 1 SNodeType.dense)
        [SNodeCore.new 0 0 SNodeType.root] = some none := by
  constructor
  · have := get_least_sparse_ancestor_correct coreDenseBelow
      [corePtr, SNodeCore.new 0 0 SNodeType.root] (by decide)
    exact this.trans (by decide)
  · have := get_least_sparse_ancestor_correct (SNodeCore.new 9 1 SNodeType.dense)
      [SNodeCore.new 0 0 SNodeType.root] (by decide)
    exact this.trans (by decide)

/-- C1: a `create_node` call with valid axis and size lists (all sizes
positive) yields a child whose flattened extent `n` is the product of the
effective sizes each rounded up to the least power of two above it
(`leastPotBound`, see `leastPotBound_is_least`), and whose extractor for each
listed axis is active with `num_bits = log2(promoted size)` and `num_elements`
the original, unpromoted requested size. -/
theorem create_node_extent_extractors (st : BuilderState) (node : SNode)
    (indices : List Nat) (sizes : List Int) (t : SNodeType)
    (harity : indices.length = sizes.length ∨ sizes.length = 1)
    (hpos : ∀ s ∈ effectiveSizes indices sizes, 0 < s)
    (ht : t ≠ SNodeType.root)
    (hhash : t = SNodeType.hash → node.core.depth = 0)
    (hax : ∀ a ∈ indices, a < taichi_max_num_indices)
    (hnodup : indices.Nodup) :
    ∃ st' t', SNode.create_node st node indices sizes t =
        Except.ok (st', t', st.counter) ∧
      ∃ child, t'.ch.getLast? = some child ∧
        child.core.n = ((effectiveSizes indices sizes).map
          (fun s => ((leastPotBound s.toNat : Nat) : Int))).prod ∧
        ∀ pr ∈ indices.zip (effectiveSizes indices sizes),
          (child.core.extractors.getD pr.1 default).active = true ∧
          (child.core.extractors.getD pr.1 default).num_bits =
            log2int (leastPotBound pr.2.toNat) ∧
          (child.core.extractors.getD pr.1 default).num_elements = pr.2 := by
  refine ⟨_, _, create_node_ok st node indices sizes t harity hpos ht hhash,
    SNode.mk (newChildCore st node indices sizes t) [], ?_, rfl, ?_⟩
  · show (node.ch ++ _).getLast? = _
    rw [List.getLast?_concat]
  · intro pr hpr
    have hfst : (indices.zip (effectiveSizes indices sizes)).map Prod.fst
        = indices := by
      apply List.map_fst_zip
      rw [effectiveSizes_length indices sizes harity]
    have hnd : ((indices.zip (effectiveSizes indices sizes)).map Prod.fst).Nodup := by
      rw [hfst]; exact hnodup
    have hmem : pr.1 ∈ indices := hfst ▸ List.mem_map_of_mem Prod.fst hpr
    have hlen : pr.1 < (List.replicate taichi_max_num_indices
        (default : Extractor)).length := by
      rw [List.length_replicate]
      exact hax pr.1 hmem
    have hget := activateExtractors_getD_mem
      (indices.zip (effectiveSizes indices sizes))
      (List.replicate taichi_max_num_indices (default : Extractor)) hnd pr hpr hlen
    have hval : ((newChildCore st node indices sizes t).extractors.getD pr.1 default) =
        { ((List.replicate taichi_max_num_indices (default : Extractor)).getD pr.1
            default).activate (log2int (leastPotBound pr.2.toNat)) with
          num_elements := pr.2 } := hget
    refine ⟨?_, ?_, ?_⟩ <;> simp only [SNode.core] <;> rw [hval] <;> rfl

theorem create_node_extent_extractors_witness :
    ∃ st' t', SNode.create_node st0 root0 [0] [10] SNodeType.dense =
        Except.ok (st', t', 1) ∧
      ∃ child, t'.ch.getLast? = some child ∧ child.core.n = 16 ∧
        (child.core.extractors.getD 0 default).active = true ∧
        (child.core.extractors.getD 0 default).num_bits = 4 ∧
        (child.core.extractors.getD 0 default).num_elements = 10 := by
  obtain ⟨st', t', h1, child, h2, h3, h4⟩ :=
    create_node_extent_extractors st0 root0 [0] [10] SNodeType.dense
      (by decide) (by decide) (by decide) (by decide) (by decide) (by decide)
  obtain ⟨ha, hb, hc⟩ := h4 (0, 10) (by decide)
  have e1 : Nat.clog 2 10 = 4 := by simp [Nat.clog]
  have e2 : Nat.log2 16 = 4 := by simp [Nat.log2]
  refine ⟨st', t', h1, child, h2, h3.trans ?_, ha, hb.trans ?_, hc⟩
  · show (List.map _ (effectiveSizes [0] [10])).prod = 16
    simp [effectiveSizes, leastPotBound, e1]
  · show log2int (leastPotBound ((10 : Int)).toNat) = 4
    simp [log2int, leastPotBound, e1]
    norm_num [e2]

theorem SNodeCore.new_id (c d : Nat) (t : SNodeType) : (SNodeCore.new c d t).id = c := rfl
theorem SNodeCore.new_type (c d : Nat) (t : SNodeType) : (SNodeCore.new c d t).type = t := rfl
theorem SNodeCore.new_expr (c d : Nat) (t : SNodeType) : (SNodeCore.new c d t).expr = none := rfl
theorem SNodeCore.new_exp_snode (c d : Nat) (t : SNodeType) : (SNodeCore.new c d t).exp_snode = none := rfl

set_option maxHeartbeats 4000000 in
/-- C2: with a shared-exponent session active and no session exponent node
yet, placing a first custom-float field with exponent type `E` creates exactly
one exponent `place` leaf (ids: one exponent node plus one value leaf, counter
+2), and placing a second field with the same exponent type creates no new
exponent leaf (only one value leaf, counter +3 in total) but reuses the
session's, so both value leaves' `exp_snode` point to the one exponent node
and its `exponent_users` list is exactly the two value leaves. -/
theorem place_shared_exponent_reuse (st : BuilderState) (node : SNode)
    (e1 e2 : Nat) (E : SimpleType)
    (hroot : node.core.type ≠ SNodeType.root)
    (hsess : st.placing_shared_exp = true)
    (hnone : st.currently_placing_exp_snode = none)
    (hne : e1 ≠ e2)
    (h1lt : e1 < st.exprs.length) (h2lt : e2 < st.exprs.length)
    (h1dt : (getExpr st e1).dt = DataType.custom_float (some E))
    (h2dt : (getExpr st e2).dt = DataType.custom_float (some E))
    (h1un : (getExpr st e1).snode = none)
    (h2un : (getExpr st e2).snode = none)
    (husers : ∀ p ∈ st.exponent_users, p.1 ≠ st.counter) :
    ∃ st1 t1, SNode.place st node (some e1) [] = Except.ok (st1, t1) ∧
    ∃ st2 t2, SNode.place st1 t1 (some e2) [] = Except.ok (st2, t2) ∧
      st1.currently_placing_exp_snode = some st.counter ∧
      st2.currently_placing_exp_snode = some st.counter ∧
      st1.counter = st.counter + 2 ∧
      st2.counter = st.counter + 3 ∧
      t1.ch.dropLast.dropLast = node.ch ∧
      t2.ch.dropLast = t1.ch ∧
      (t2.ch.drop node.ch.length).map (fun c => c.core.id) =
        [st.counter, st.counter + 1, st.counter + 2] ∧
      (t2.ch.drop node.ch.length).map (fun c => c.core.type) =
        [SNodeType.place, SNodeType.place, SNodeType.place] ∧
      (t2.ch.drop node.ch.length).map (fun c => c.core.dt) =
        [DataType.simple E, DataType.custom_float (some E),
          DataType.custom_float (some E)] ∧
      (t2.ch.drop node.ch.length).map (fun c => c.core.expr) =
        [none, some e1, some e2] ∧
      (t2.ch.drop node.ch.length).map (fun c => c.core.exp_snode) =
        [none, some st.counter, some st.counter] ∧
      (getExpr st2 e1).snode = some (st.counter + 1) ∧
      (getExpr st2 e2).snode = some (st.counter + 2) ∧
      usersOf st2 st.counter = [st.counter + 1, st.counter + 2] := by
  have gA : ∀ (X : ExprData), (st.exprs.set e1 X).getD e2 default
      = st.exprs.getD e2 default := fun X => getD_set_ne _ _ hne
  have gB : ∀ (X : ExprData), (st.exprs.set e1 X).getD e1 default = X :=
    fun X => getD_set_eq_of_lt _ _ h1lt
  have gC : ∀ (X Y : ExprData), ((st.exprs.set e1 X).set e2 Y).getD e1 default = X :=
    fun X Y => (getD_set_ne _ _ (Ne.symm hne)).trans (gB X)
  have gD : ∀ (X Y : ExprData), ((st.exprs.set e1 X).set e2 Y).getD e2 default = Y :=
    fun X Y => getD_set_eq_of_lt _ _ (by rw [List.length_set]; exact h2lt)
  have gE : List.filter (fun p => decide (p.1 = st.counter)) st.exponent_users = [] := by
    rw [List.filter_eq_nil_iff]
    intro p hp
    simpa using husers p hp
  simp only [getExpr] at h1dt h2dt h1un h2un
  obtain ⟨ncore, nch⟩ := node
  simp only [SNode.core, SNode.ch] at hroot ⊢
  rcases Bool.eq_false_or_eq_true (st.exprs.getD e1 default).has_ambient with hamb1 | hamb1 <;>
  rcases Bool.eq_false_or_eq_true (st.exprs.getD e2 default).has_ambient with hamb2 | hamb2 <;>
  · simp only [SNode.place, SNode.place_inner, place_exp_step.eq_def,
      place_value_step, SNode.insert_children,
      SNode.modifyLastChild, SNode.core, SNode.ch, setSNodeBinding, getExpr,
      getExponentType, bind, Except.bind, pure, Except.pure,
      if_neg hroot, hsess, hnone, h1dt, h1un, hamb1, gA, gB,
      Option.isSome_none, Option.isSome_some, Bool.and_false, Bool.and_true,
      Bool.true_and, Bool.false_eq_true, Bool.true_eq_false, if_false, if_true,
      reduceIte, List.getLast?_concat, List.dropLast_concat, List.isEmpty_nil,
      Bool.not_false, Bool.not_true, bne_self_eq_false, hamb2, h2un, h2dt,
      reduceCtorEq]
    refine ⟨_, _, rfl, ?_⟩
    simp only [SNode.place, SNode.place_inner, place_exp_step.eq_def,
      place_value_step, SNode.insert_children,
      SNode.modifyLastChild, SNode.core, SNode.ch, setSNodeBinding, getExpr,
      getExponentType, bind, Except.bind, pure, Except.pure,
      if_neg hroot, gA, gB, gC, gD, SNodeCore.new_id, hamb1, hamb2,
      Option.isSome_none, Option.isSome_some, Bool.and_false, Bool.and_true,
      Bool.true_and, Bool.false_eq_true, Bool.true_eq_false, if_false, if_true,
      reduceIte, List.getLast?_concat, List.dropLast_concat, List.isEmpty_nil,
      Bool.not_false, Bool.not_true, bne_self_eq_false, h2un, h2dt,
      reduceCtorEq]
    refine ⟨_, _, rfl, ?_⟩
    repeat' apply And.intro
    all_goals try trivial
    all_goals try rfl
    all_goals try (rw [List.dropLast_concat])
    all_goals try (rw [List.dropLast_concat])
    all_goals try (simp only [getExpr, gC, gD]; try rfl)
    all_goals try (simp [usersOf, List.filter_append, gE, SNodeCore.new_id])
    all_goals try simp only [List.append_assoc, List.singleton_append,
      List.cons_append, List.nil_append]
    all_goals try rw [List.drop_left]
    all_goals try simp only [List.map_cons, List.map_nil, SNodeCore.new_id,
      SNodeCore.new_type, SNodeCore.new_expr, SNodeCore.new_exp_snode]
    all_goals try rfl
    all_goals try (exact ⟨trivial, trivial, trivial⟩)


theorem place_shared_exponent_reuse_witness :
    ∃ st1 t1, SNode.place stC denseDepth1 (some 0) [] = Except.ok (st1, t1) ∧
    ∃ st2 t2, SNode.place st1 t1 (some 1) [] = Except.ok (st2, t2) ∧
      st1.currently_placing_exp_snode = some 2 ∧
      st2.currently_placing_exp_snode = some 2 ∧
      st1.counter = 4 ∧
      st2.counter = 5 ∧
      t1.ch.dropLast.dropLast = denseDepth1.ch ∧
      t2.ch.dropLast = t1.ch ∧
      (t2.ch.drop denseDepth1.ch.length).map (fun c => c.core.id) = [2, 3, 4] ∧
      (t2.ch.drop denseDepth1.ch.length).map (fun c => c.core.type) =
        [SNodeType.place, SNodeType.place, SNodeType.place] ∧
      (t2.ch.drop denseDepth1.ch.length).map (fun c => c.core.dt) =
        [DataType.simple expType0, DataType.custom_float (some expType0),
          DataType.custom_float (some expType0)] ∧
      (t2.ch.drop denseDepth1.ch.length).map (fun c => c.core.expr) =
        [none, some 0, some 1] ∧
      (t2.ch.drop denseDepth1.ch.length).map (fun c => c.core.exp_snode) =
        [none, some 2, some 2] ∧
      (getExpr st2 0).snode = some 3 ∧
      (getExpr st2 1).snode = some 4 ∧
      usersOf st2 2 = [3, 4] :=
  place_shared_exponent_reuse stC denseDepth1 0 1 expType0 (by decide) rfl rfl
    (by decide) (by decide) (by decide) rfl rfl rfl rfl (by decide)

theorem mem_rootPathsList (p : List SNodeCore) :
    ∀ l : List SNode, p ∈ rootPathsList l ↔ ∃ c ∈ l, p ∈ rootPaths c
  | [] => by simp [rootPathsList]
  | c :: cs => by
      simp [rootPathsList, List.mem_append, mem_rootPathsList p cs]

theorem rootPaths_ne_nil (t : SNode) (p : List SNodeCore) (hp : p ∈ rootPaths t) :
    p ≠ [] := by
  obtain ⟨core, ch⟩ := t
  rcases List.mem_cons.1 hp with rfl | hp'
  · simp
  · obtain ⟨p', _, rfl⟩ := List.mem_map.1 hp'
    simp

theorem getLast?_cons_ne_nil {α : Type} (a : α) (l : List α) (h : l ≠ []) :
    (a :: l).getLast? = l.getLast? := by
  cases l with
  | nil => exact absurd rfl h
  | cons x xs => exact List.getLast?_cons_cons

theorem denseOk_path : ∀ (t : SNode) (b : Bool), DenseOk b t →
    ∀ p ∈ rootPaths t, ∀ c ∈ p.getLast?,
      c.is_path_all_dense = (b && p.all (fun s => !s.need_activation))
  | SNode.mk core ch, b, hd, p, hp => by
      rcases hd with ⟨_, _, _, hc, hch⟩
      rcases List.mem_cons.1 hp with rfl | hp'
      · simp [hc, Bool.and_assoc]
      · obtain ⟨p', hmem, rfl⟩ := List.mem_map.1 hp'
        obtain ⟨ch1, hch1, hpc⟩ := (mem_rootPathsList p' ch).1 hmem
        intro c hcl
        have hne := rootPaths_ne_nil ch1 p' hpc
        rw [getLast?_cons_ne_nil core p' hne] at hcl
        have hih := denseOk_path ch1 core.is_path_all_dense (hch ch1 hch1) p' hpc c hcl
        rw [hih, hc]
        simp [Bool.and_assoc]
  termination_by t => sizeOf t
  decreasing_by
    simp_wf
    have := List.sizeOf_lt_of_mem hch1
    omega

theorem need_activation_congr {c₁ c₂ : SNodeCore} (h : c₁.type = c₂.type) :
    c₁.need_activation = c₂.need_activation := by
  simp [SNodeCore.need_activation, h]

theorem denseOk_insert (b : Bool) (st : BuilderState) (t : SNode)
    (st' : BuilderState) (t' : SNode) (cid : Nat) (k : SNodeType)
    (hd : DenseOk b t)
    (h : SNode.insert_children st t k = Except.ok (st', t', cid)) : DenseOk b t' := by
  obtain ⟨core, ch⟩ := t
  rcases hd with ⟨_, _, _, hc, hch⟩
  unfold SNode.insert_children at h
  by_cases hk : k = SNodeType.root
  · simp [hk, bind, Except.bind] at h
  · simp only [hk, bind, Except.bind, pure, Except.pure, if_false,
      reduceIte, SNode.core, SNode.ch, Except.ok.injEq, Prod.mk.injEq] at h
    obtain ⟨h1, h2, h3⟩ := h
    subst h2
    refine DenseOk.mk b core _ hc ?_
    intro c hc'
    rcases List.mem_append.1 hc' with hc' | hc'
    · exact hch c hc'
    · rcases List.mem_singleton.1 hc' with rfl
      refine DenseOk.mk _ _ _ rfl ?_
      intro c hc''
      cases hc''

theorem denseOk_modifyLast (b : Bool) (t : SNode) (f : SNodeCore → SNodeCore)
    (hf : ∀ c, (f c).type = c.type ∧ (f c).is_path_all_dense = c.is_path_all_dense)
    (hd : DenseOk b t) : DenseOk b (t.modifyLastChild f) := by
  obtain ⟨core, ch⟩ := t
  rcases hd with ⟨_, _, _, hc, hch⟩
  unfold SNode.modifyLastChild
  cases hl : ch.getLast? with
  | none =>
      simp only [hl]
      exact DenseOk.mk b core ch hc hch
  | some last =>
      obtain ⟨lc, lch⟩ := last
      simp only [hl]
      refine DenseOk.mk b core _ hc ?_
      intro c hc'
      rcases List.mem_append.1 hc' with hc' | hc'
      · exact hch c (List.dropLast_subset ch hc')
      · rcases List.mem_singleton.1 hc' with rfl
        have hlast := hch _ (List.mem_of_mem_getLast? hl)
        rcases hlast with ⟨_, _, _, hlc, hlch⟩
        refine DenseOk.mk _ _ _ ?_ ?_
        · rw [(hf lc).2, hlc, need_activation_congr (hf lc).1]
        · intro c hcc
          rw [(hf lc).2]
          exact hlch c hcc

theorem denseOk_modifyLastE (b : Bool) (t t' : SNode)
    (f : SNodeCore → Except String SNodeCore)
    (hf : ∀ c c', f c = Except.ok c' → c'.type = c.type ∧
      c'.is_path_all_dense = c.is_path_all_dense)
    (hd : DenseOk b t) (h : t.modifyLastChildE f = Except.ok t') : DenseOk b t' := by
  obtain ⟨core, ch⟩ := t
  rcases hd with ⟨_, _, _, hc, hch⟩
  unfold SNode.modifyLastChildE at h
  cases hl : ch.getLast? with
  | none =>
      simp only [hl, pure, Except.pure, Except.ok.injEq] at h
      subst h
      exact DenseOk.mk b core ch hc hch
  | some last =>
      obtain ⟨lc, lch⟩ := last
      simp only [hl, bind, Except.bind] at h
      revert h
      cases hfc : f lc with
      | error e => intro h; cases h
      | ok lc' =>
          intro h
          simp only [pure, Except.pure, Except.ok.injEq] at h
          subst h
          refine DenseOk.mk b core _ hc ?_
          intro c hc'
          rcases List.mem_append.1 hc' with hc' | hc'
          · exact hch c (List.dropLast_subset ch hc')
          · rcases List.mem_singleton.1 hc' with rfl
            have hlast := hch _ (List.mem_of_mem_getLast? hl)
            rcases hlast with ⟨_, _, _, hlc, hlch⟩
            refine DenseOk.mk _ _ _ ?_ ?_
            · rw [(hf lc lc' hfc).2, hlc, need_activation_congr (hf lc lc' hfc).1]
            · intro c hcc
              rw [(hf lc lc' hfc).2]
              exact hlch c hcc

theorem denseOk_create (b : Bool) (st : BuilderState) (t : SNode)
    (st' : BuilderState) (t' : SNode) (cid : Nat) (indices : List Nat)
    (sizes : List Int) (k : SNodeType) (hd : DenseOk b t)
    (h : SNode.create_node st t indices sizes k = Except.ok (st', t', cid)) :
    DenseOk b t' := by
  unfold SNode.create_node at h
  simp only [bind, Except.bind, pure, Except.pure] at h
  by_cases h1 : (indices.length = sizes.length || sizes.length = 1) = true
  · simp only [h1, Bool.not_true, Bool.false_eq_true, if_false] at h
    by_cases h2 : (k = SNodeType.hash && t.core.depth != 0) = true
    · simp [h2] at h
    · rw [Bool.not_eq_true] at h2
      simp only [h2, Bool.false_eq_true, if_false] at h
      cases hi : SNode.insert_children st t k with
      | error e =>
          simp only [hi] at h
          exact Except.noConfusion h
      | ok v =>
          simp only [hi] at h
          obtain ⟨st1, t1, cid1⟩ := v
          cases ha : accumulateSizes 1 (effectiveSizes indices sizes) with
          | error e =>
              simp only [ha] at h
              exact Except.noConfusion h
          | ok n =>
              simp only [ha, pure, Except.pure, Except.ok.injEq, Prod.mk.injEq] at h
              obtain ⟨ha1, ha2, ha3⟩ := h
              subst ha2
              exact denseOk_modifyLast b t1 _ (fun c => ⟨rfl, rfl⟩)
                (denseOk_insert b st t st1 t1 cid1 k hd hi)
  · rw [Bool.not_eq_true] at h1
    simp [h1] at h

theorem set_index_offsets_preserves (c c' : SNodeCore) (off : List Int)
    (h : c.set_index_offsets off = Except.ok c') :
    c'.type = c.type ∧ c'.is_path_all_dense = c.is_path_all_dense := by
  unfold SNodeCore.set_index_offsets at h
  simp only [bind, Except.bind, pure, Except.pure] at h
  split at h
  · exact Except.noConfusion h
  · split at h
    · exact Except.noConfusion h
    · split at h
      · exact Except.noConfusion h
      · obtain rfl := Except.ok.inj h
        exact ⟨rfl, rfl⟩

theorem denseOk_ite_modify (b : Bool) (t : SNode) (c : Prop) [Decidable c]
    (f : SNodeCore → SNodeCore)
    (hf : ∀ x, (f x).type = x.type ∧ (f x).is_path_all_dense = x.is_path_all_dense)
    (hd : DenseOk b t) : DenseOk b (if c then t.modifyLastChild f else t) := by
  by_cases hc : c
  · rw [if_pos hc]
    exact denseOk_modifyLast b t f hf hd
  · rw [if_neg hc]
    exact hd

theorem denseOk_place_exp_step (b : Bool) (st : BuilderState) (t : SNode)
    (expr : ExprData) (st' : BuilderState) (t' : SNode) (nes : Option Nat)
    (hd : DenseOk b t)
    (h : place_exp_step st t expr = Except.ok (st', t', nes)) : DenseOk b t' := by
  unfold place_exp_step at h
  cases hexp : getExponentType expr.dt with
  | none =>
      simp only [hexp, Except.ok.injEq, Prod.mk.injEq] at h
      obtain ⟨h1, h2, h3⟩ := h
      subst h2
      exact hd
  | some exp =>
      simp only [hexp, bind, Except.bind, pure, Except.pure] at h
      split at h
      · split at h
        · exact Except.noConfusion h
        · simp only [Except.ok.injEq, Prod.mk.injEq] at h
          obtain ⟨h1, h2, h3⟩ := h
          subst h2
          exact hd
      · revert h
        cases hi : SNode.insert_children st t SNodeType.place with
        | error e => intro h; exact Except.noConfusion h
        | ok v =>
            obtain ⟨st1, t1, c1⟩ := v
            intro h
            simp only [Except.ok.injEq, Prod.mk.injEq] at h
            obtain ⟨h1, h2, h3⟩ := h
            subst h2
            exact denseOk_modifyLast b t1 _ (fun c => ⟨rfl, rfl⟩)
              (denseOk_insert b st t st1 t1 c1 SNodeType.place hd hi)

theorem denseOk_place_value_step (b : Bool) (st : BuilderState) (t : SNode)
    (e : Nat) (expr : ExprData) (nes : Option Nat) (offset : List Int)
    (st' : BuilderState) (t' : SNode) (hd : DenseOk b t)
    (h : place_value_step st t e expr nes offset = Except.ok (st', t')) :
    DenseOk b t' := by
  unfold place_value_step at h
  simp only [bind, Except.bind, pure, Except.pure] at h
  cases nes with
  | none =>
      revert h
      cases hi : SNode.insert_children st t SNodeType.place with
      | error err => intro h; exact Except.noConfusion h
      | ok v =>
          obtain ⟨st1, t1, c1⟩ := v
          intro h
          have hd1 : DenseOk b t1 :=
            denseOk_insert b st t st1 t1 c1 SNodeType.place hd hi
          simp only [] at h
          split at h
          · split at h
            · exact Except.noConfusion h
            · rename_i node' heq
              simp only [Except.ok.injEq, Prod.mk.injEq] at h
              obtain ⟨h1, h2⟩ := h
              subst h2
              refine denseOk_modifyLastE b _ _ _
                (fun c c' hcc => set_index_offsets_preserves c c' offset hcc) ?_ heq
              exact denseOk_modifyLast b _ _ (fun c => ⟨rfl, rfl⟩)
                (denseOk_ite_modify b _ _ _ (fun c => ⟨rfl, rfl⟩)
                  (denseOk_modifyLast b _ _ (fun c => ⟨rfl, rfl⟩)
                    (denseOk_ite_modify b _ _ _ (fun c => ⟨rfl, rfl⟩)
                      (denseOk_modifyLast b _ _ (fun c => ⟨rfl, rfl⟩) hd1))))
          · simp only [Except.ok.injEq, Prod.mk.injEq] at h
            obtain ⟨h1, h2⟩ := h
            subst h2
            exact denseOk_modifyLast b _ _ (fun c => ⟨rfl, rfl⟩)
              (denseOk_ite_modify b _ _ _ (fun c => ⟨rfl, rfl⟩)
                (denseOk_modifyLast b _ _ (fun c => ⟨rfl, rfl⟩)
                  (denseOk_ite_modify b _ _ _ (fun c => ⟨rfl, rfl⟩)
                    (denseOk_modifyLast b _ _ (fun c => ⟨rfl, rfl⟩) hd1))))
  | some k =>
      revert h
      cases hi : SNode.insert_children st t SNodeType.place with
      | error err => intro h; exact Except.noConfusion h
      | ok v =>
          obtain ⟨st1, t1, c1⟩ := v
          intro h
          have hd1 : DenseOk b t1 :=
            denseOk_insert b st t st1 t1 c1 SNodeType.place hd hi
          simp only [] at h
          split at h
          · split at h
            · exact Except.noConfusion h
            · rename_i node' heq
              simp only [Except.ok.injEq, Prod.mk.injEq] at h
              obtain ⟨h1, h2⟩ := h
              subst h2
              refine denseOk_modifyLastE b _ _ _
                (fun c c' hcc => set_index_offsets_preserves c c' offset hcc) ?_ heq
              exact denseOk_modifyLast b _ _ (fun c => ⟨rfl, rfl⟩)
                (denseOk_modifyLast b _ _ (fun c => ⟨rfl, rfl⟩)
                  (denseOk_ite_modify b _ _ _ (fun c => ⟨rfl, rfl⟩)
                    (denseOk_modifyLast b _ _ (fun c => ⟨rfl, rfl⟩)
                      (denseOk_ite_modify b _ _ _ (fun c => ⟨rfl, rfl⟩)
                        (denseOk_modifyLast b _ _ (fun c => ⟨rfl, rfl⟩) hd1)))))
          · simp only [Except.ok.injEq, Prod.mk.injEq] at h
            obtain ⟨h1, h2⟩ := h
            subst h2
            exact denseOk_modifyLast b _ _ (fun c => ⟨rfl, rfl⟩)
              (denseOk_modifyLast b _ _ (fun c => ⟨rfl, rfl⟩)
                (denseOk_ite_modify b _ _ _ (fun c => ⟨rfl, rfl⟩)
                  (denseOk_modifyLast b _ _ (fun c => ⟨rfl, rfl⟩)
                    (denseOk_ite_modify b _ _ _ (fun c => ⟨rfl, rfl⟩)
                      (denseOk_modifyLast b _ _ (fun c => ⟨rfl, rfl⟩) hd1)))))

theorem denseOk_place_inner (b : Bool) (st : BuilderState) (t : SNode)
    (eid : Option Nat) (offset : List Int) (st' : BuilderState) (t' : SNode)
    (hd : DenseOk b t)
    (h : SNode.place_inner st t eid offset = Except.ok (st', t')) : DenseOk b t' := by
  unfold SNode.place_inner at h
  cases eid with
  | none => exact Except.noConfusion h
  | some e =>
      simp only [bind, Except.bind, pure, Except.pure] at h
      split at h
      · exact Except.noConfusion h
      · revert h
        cases hx : place_exp_step st t (getExpr st e) with
        | error err => intro h; exact Except.noConfusion h
        | ok v =>
            obtain ⟨st1, t1, nes⟩ := v
            intro h
            exact denseOk_place_value_step b st1 t1 e (getExpr st e) nes offset st' t'
              (denseOk_place_exp_step b st t (getExpr st e) st1 t1 nes hd hx) h

theorem denseOk_place (b : Bool) (st : BuilderState) (t : SNode)
    (eid : Option Nat) (offset : List Int) (st' : BuilderState) (t' : SNode)
    (hd : DenseOk b t)
    (h : SNode.place st t eid offset = Except.ok (st', t')) : DenseOk b t' := by
  unfold SNode.place at h
  simp only [bind, Except.bind, pure, Except.pure] at h
  split at h
  · -- root redirect: dense child inserted, then place_inner into it
    cases hdense : SNode.dense st t [] [] with
    | error err =>
        simp only [hdense] at h
        exact Except.noConfusion h
    | ok v =>
        obtain ⟨st1, t1, c1⟩ := v
        have hd1 : DenseOk b t1 :=
          denseOk_create b st t st1 t1 c1 [] [] SNodeType.dense hd hdense
        obtain ⟨core1, ch1⟩ := t1
        rcases hd1 with ⟨_, _, _, hc1, hch1⟩
        simp only [hdense] at h
        cases hl : ch1.getLast? with
        | none =>
            simp only [hl] at h
            simp at h
        | some c =>
            simp only [hl] at h
            cases hpi : SNode.place_inner st1 c eid offset with
            | error err =>
                simp only [hpi] at h
                exact Except.noConfusion h
            | ok v2 =>
                obtain ⟨st2, c'⟩ := v2
                simp only [hpi, Except.ok.injEq, Prod.mk.injEq] at h
                obtain ⟨h1, h2⟩ := h
                subst h2
                have hdc : DenseOk core1.is_path_all_dense c :=
                  hch1 c (List.mem_of_mem_getLast? hl)
                have hdc' : DenseOk core1.is_path_all_dense c' :=
                  denseOk_place_inner core1.is_path_all_dense st1 c eid offset st2 c' hdc hpi
                refine DenseOk.mk b core1 _ hc1 ?_
                intro x hx
                rcases List.mem_append.1 hx with hx | hx
                · exact hch1 x (List.dropLast_subset ch1 hx)
                · rcases List.mem_singleton.1 hx with rfl
                  exact hdc'
  · exact denseOk_place_inner b st t eid offset st' t' hd h

theorem denseOk_placeGrads : ∀ (gs : List (Option Nat)) (b : Bool)
    (st : BuilderState) (t : SNode) (st' : BuilderState) (t' : SNode),
    DenseOk b t → placeGrads st t gs = Except.ok (st', t') → DenseOk b t'
  | [], b, st, t, st', t', hd, h => by
      simp only [placeGrads, pure, Except.pure, Except.ok.injEq, Prod.mk.injEq] at h
      obtain ⟨h1, h2⟩ := h
      subst h2
      exact hd
  | g :: gs, b, st, t, st', t', hd, h => by
      simp only [placeGrads, bind, Except.bind] at h
      cases hp : SNode.place st t g [] with
      | error err =>
          simp only [hp] at h
          exact Except.noConfusion h
      | ok v =>
          simp only [hp] at h
          obtain ⟨st1, t1⟩ := v
          exact denseOk_placeGrads gs b st1 t1 st' t'
            (denseOk_place b st t g [] st1 t1 hd hp) h

mutual

theorem denseOk_lazy : ∀ (t : SNode) (b : Bool) (st st' : BuilderState) (t' : SNode),
    DenseOk b t → SNode.lazy_grad st t = Except.ok (st', t') → DenseOk b t'
  | SNode.mk core ch, b, st, st', t', hd, h => by
      rw [SNode.lazy_grad] at h
      rcases hd with ⟨_, _, _, hc, hch⟩
      split at h
      · simp only [pure, Except.pure, Except.ok.injEq, Prod.mk.injEq] at h
        obtain ⟨h1, h2⟩ := h
        subst h2
        exact DenseOk.mk b core ch hc hch
      · simp only [bind, Except.bind] at h
        cases hcl : lazyGradChildren st ch with
        | error err =>
            simp only [hcl] at h
            exact Except.noConfusion h
        | ok v =>
            simp only [hcl] at h
            obtain ⟨st1, ch'⟩ := v
            have hch' : ∀ c' ∈ ch', DenseOk core.is_path_all_dense c' :=
              denseOk_lazyChildren ch core.is_path_all_dense st st1 ch' hch hcl
            cases hcg : collectGrads st1 ch' with
            | error err =>
                simp only [hcg] at h
                injection h
            | ok grads =>
                simp only [hcg] at h
                exact denseOk_placeGrads grads b st1 (SNode.mk core ch') st' t'
                  (DenseOk.mk b core ch' hc hch') (by exact h)

theorem denseOk_lazyChildren : ∀ (l : List SNode) (flag : Bool)
    (st st' : BuilderState) (l' : List SNode),
    (∀ c ∈ l, DenseOk flag c) → lazyGradChildren st l = Except.ok (st', l') →
    ∀ c' ∈ l', DenseOk flag c'
  | [], flag, st, st', l', hl, h => by
      simp only [lazyGradChildren, pure, Except.pure, Except.ok.injEq,
        Prod.mk.injEq] at h
      obtain ⟨h1, h2⟩ := h
      subst h2
      intro c' hc'
      cases hc'
  | c :: cs, flag, st, st', l', hl, h => by
      simp only [lazyGradChildren, bind, Except.bind] at h
      cases hg : SNode.lazy_grad st c with
      | error err =>
          simp only [hg] at h
          exact Except.noConfusion h
      | ok v =>
          simp only [hg] at h
          obtain ⟨st1, c1⟩ := v
          cases hgs : lazyGradChildren st1 cs with
          | error err =>
              simp only [hgs] at h
              exact Except.noConfusion h
          | ok v2 =>
              simp only [hgs, pure, Except.pure, Except.ok.injEq, Prod.mk.injEq] at h
              obtain ⟨st2, cs'⟩ := v2
              obtain ⟨h1, h2⟩ := h
              subst h2
              intro c' hc'
              rcases List.mem_cons.1 hc' with rfl | hc'
              · exact denseOk_lazy c flag st st1 c'
                  (hl c (List.mem_cons_self c cs)) hg
              · exact denseOk_lazyChildren cs flag st1 st2 cs'
                  (fun x hx => hl x (List.mem_cons_of_mem c hx)) hgs c' hc'

end

mutual

theorem denseOk_applyAt : ∀ (t : SNode) (i : Nat)
    (f : BuilderState → SNode → Except String (BuilderState × SNode))
    (b : Bool) (st st' : BuilderState) (t' : SNode),
    PreservesDense f → DenseOk b t → applyAt i f st t = Except.ok (st', t') →
    DenseOk b t'
  | SNode.mk core ch, i, f, b, st, st', t', hf, hd, h => by
      rw [applyAt] at h
      split at h
      · exact hf b st (SNode.mk core ch) st' t' hd h
      · simp only [bind, Except.bind] at h
        rcases hd with ⟨_, _, _, hc, hch⟩
        cases hl : applyAtList i f st ch with
        | error err =>
            simp only [hl] at h
            exact Except.noConfusion h
        | ok v =>
            simp only [hl, pure, Except.pure, Except.ok.injEq, Prod.mk.injEq] at h
            obtain ⟨st1, ch'⟩ := v
            obtain ⟨h1, h2⟩ := h
            subst h2
            exact DenseOk.mk b core ch' hc
              (denseOk_applyAtList ch i f core.is_path_all_dense st st1 ch' hf hch hl)

theorem denseOk_applyAtList : ∀ (l : List SNode) (i : Nat)
    (f : BuilderState → SNode → Except String (BuilderState × SNode))
    (flag : Bool) (st st' : BuilderState) (l' : List SNode),
    PreservesDense f → (∀ c ∈ l, DenseOk flag c) →
    applyAtList i f st l = Except.ok (st', l') →
    ∀ c' ∈ l', DenseOk flag c'
  | [], i, f, flag, st, st', l', hf, hl, h => by
      rw [applyAtList] at h
      simp only [pure, Except.pure, Except.ok.injEq, Prod.mk.injEq] at h
      obtain ⟨h1, h2⟩ := h
      subst h2
      intro c' hc'
      cases hc'
  | c :: cs, i, f, flag, st, st', l', hf, hl, h => by
      rw [applyAtList] at h
      simp only [bind, Except.bind] at h
      cases hg : applyAt i f st c with
      | error err =>
          simp only [hg] at h
          exact Except.noConfusion h
      | ok v =>
          simp only [hg] at h
          obtain ⟨st1, c1⟩ := v
          cases hgs : applyAtList i f st1 cs with
          | error err =>
              simp only [hgs] at h
              injection h
          | ok v2 =>
              simp only [hgs, pure, Except.pure, Except.ok.injEq, Prod.mk.injEq] at h
              obtain ⟨st2, cs'⟩ := v2
              obtain ⟨h1, h2⟩ := h
              subst h2
              intro c' hc'
              rcases List.mem_cons.1 hc' with rfl | hc'
              · exact denseOk_applyAt c i f flag st st1 c' hf
                  (hl c (List.mem_cons_self c cs)) hg
              · exact denseOk_applyAtList cs i f flag st1 st2 cs' hf
                  (fun x hx => hl x (List.mem_cons_of_mem c hx)) hgs c' hc'

end

theorem denseOk_dynamic (b : Bool) (st : BuilderState) (t : SNode)
    (st' : BuilderState) (t' : SNode) (cid : Nat) (axis : Nat) (n chunk : Int)
    (hd : DenseOk b t)
    (h : SNode.dynamic st t axis n chunk = Except.ok (st', t', cid)) : DenseOk b t' := by
  unfold SNode.dynamic at h
  simp only [bind, Except.bind] at h
  cases hc : SNode.create_node st t [axis] [n] SNodeType.dynamic with
  | error err =>
      simp only [hc] at h
      exact Except.noConfusion h
  | ok v =>
      simp only [hc, pure, Except.pure, Except.ok.injEq, Prod.mk.injEq] at h
      obtain ⟨st1, t1, c1⟩ := v
      obtain ⟨h1, h2, h3⟩ := h
      subst h2
      exact denseOk_modifyLast b t1 _ (fun c => ⟨rfl, rfl⟩)
        (denseOk_create b st t st1 t1 c1 _ _ _ hd hc)

theorem denseOk_bit_struct (b : Bool) (st : BuilderState) (t : SNode)
    (st' : BuilderState) (t' : SNode) (cid : Nat) (bits : Nat)
    (hd : DenseOk b t)
    (h : SNode.bit_struct st t bits = Except.ok (st', t', cid)) : DenseOk b t' := by
  unfold SNode.bit_struct at h
  simp only [bind, Except.bind] at h
  cases hc : SNode.create_node st t [] [] SNodeType.bit_struct with
  | error err =>
      simp only [hc] at h
      exact Except.noConfusion h
  | ok v =>
      simp only [hc, pure, Except.pure, Except.ok.injEq, Prod.mk.injEq] at h
      obtain ⟨st1, t1, c1⟩ := v
      obtain ⟨h1, h2, h3⟩ := h
      subst h2
      exact denseOk_modifyLast b t1 _ (fun c => ⟨rfl, rfl⟩)
        (denseOk_create b st t st1 t1 c1 _ _ _ hd hc)

theorem denseOk_bit_array (b : Bool) (st : BuilderState) (t : SNode)
    (st' : BuilderState) (t' : SNode) (cid : Nat) (indices : List Nat)
    (sizes : List Int) (bits : Nat) (hd : DenseOk b t)
    (h : SNode.bit_array st t indices sizes bits = Except.ok (st', t', cid)) :
    DenseOk b t' := by
  unfold SNode.bit_array at h
  simp only [bind, Except.bind] at h
  cases hc : SNode.create_node st t indices sizes SNodeType.bit_array with
  | error err =>
      simp only [hc] at h
      exact Except.noConfusion h
  | ok v =>
      simp only [hc, pure, Except.pure, Except.ok.injEq, Prod.mk.injEq] at h
      obtain ⟨st1, t1, c1⟩ := v
      obtain ⟨h1, h2, h3⟩ := h
      subst h2
      exact denseOk_modifyLast b t1 _ (fun c => ⟨rfl, rfl⟩)
        (denseOk_create b st t st1 t1 c1 _ _ _ hd hc)

theorem preservesDense_triple
    (g : BuilderState → SNode → Except String (BuilderState × SNode × Nat))
    (hg : ∀ (b : Bool) st t st' t' cid, DenseOk b t →
      g st t = Except.ok (st', t', cid) → DenseOk b t') :
    PreservesDense (fun st n => do
      let (st, n, _) ← g st n
      pure (st, n)) := by
  intro b st t st' t' hd h
  simp only [bind, Except.bind] at h
  cases hgt : g st t with
  | error err =>
      simp only [hgt] at h
      exact Except.noConfusion h
  | ok v =>
      simp only [hgt, pure, Except.pure, Except.ok.injEq, Prod.mk.injEq] at h
      obtain ⟨st1, t1, c1⟩ := v
      obtain ⟨h1, h2⟩ := h
      subst h2
      exact hg b st t st1 t1 c1 hd hgt

theorem denseOk_applyOp (b : Bool) (st : BuilderState) (t : SNode)
    (st' : BuilderState) (t' : SNode) (op : Op) (hd : DenseOk b t)
    (h : applyOp st t op = Except.ok (st', t')) : DenseOk b t' := by
  cases op with
  | insert_ch tg k =>
      exact denseOk_applyAt t tg _ b st st' t'
        (preservesDense_triple _ (fun b st t st' t' cid hd h =>
          denseOk_insert b st t st' t' cid k hd h)) hd h
  | create_nd tg indices sizes k =>
      exact denseOk_applyAt t tg _ b st st' t'
        (preservesDense_triple _ (fun b st t st' t' cid hd h =>
          denseOk_create b st t st' t' cid indices sizes k hd h)) hd h
  | dense_nd tg indices sizes =>
      exact denseOk_applyAt t tg _ b st st' t'
        (preservesDense_triple _ (fun b st t st' t' cid hd h =>
          denseOk_create b st t st' t' cid indices sizes SNodeType.dense hd h)) hd h
  | dynamic_nd tg axis n chunk =>
      exact denseOk_applyAt t tg _ b st st' t'
        (preservesDense_triple _ (fun b st t st' t' cid hd h =>
          denseOk_dynamic b st t st' t' cid axis n chunk hd h)) hd h
  | bit_struct_nd tg bits =>
      exact denseOk_applyAt t tg _ b st st' t'
        (preservesDense_triple _ (fun b st t st' t' cid hd h =>
          denseOk_bit_struct b st t st' t' cid bits hd h)) hd h
  | bit_array_nd tg indices sizes bits =>
      exact denseOk_applyAt t tg _ b st st' t'
        (preservesDense_triple _ (fun b st t st' t' cid hd h =>
          denseOk_bit_array b st t st' t' cid indices sizes bits hd h)) hd h
  | place_op tg eid offset =>
      exact denseOk_applyAt t tg _ b st st' t'
        (fun b st t st' t' hd h => denseOk_place b st t eid offset st' t' hd h) hd h
  | lazy_grad_op tg =>
      exact denseOk_applyAt t tg _ b st st' t'
        (fun b st t st' t' hd h => denseOk_lazy t b st st' t' hd h) hd h
  | begin_shared =>
      simp only [applyOp, bind, Except.bind] at h
      cases hb : begin_shared_exp_placement st with
      | error err =>
          simp only [hb] at h
          exact Except.noConfusion h
      | ok st1 =>
          simp only [hb, pure, Except.pure, Except.ok.injEq, Prod.mk.injEq] at h
          obtain ⟨h1, h2⟩ := h
          subst h2
          exact hd
  | end_shared =>
      simp only [applyOp, bind, Except.bind] at h
      cases hb : end_shared_exp_placement st with
      | error err =>
          simp only [hb] at h
          exact Except.noConfusion h
      | ok st1 =>
          simp only [hb, pure, Except.pure, Except.ok.injEq, Prod.mk.injEq] at h
          obtain ⟨h1, h2⟩ := h
          subst h2
          exact hd

theorem denseOk_runOps : ∀ (ops : List Op) (b : Bool) (st : BuilderState)
    (t : SNode) (st' : BuilderState) (t' : SNode),
    DenseOk b t → runOps st t ops = Except.ok (st', t') → DenseOk b t'
  | [], b, st, t, st', t', hd, h => by
      simp only [runOps, pure, Except.pure, Except.ok.injEq, Prod.mk.injEq] at h
      obtain ⟨h1, h2⟩ := h
      subst h2
      exact hd
  | op :: ops, b, st, t, st', t', hd, h => by
      simp only [runOps, bind, Except.bind] at h
      cases ha : applyOp st t op with
      | error err =>
          simp only [ha] at h
          exact Except.noConfusion h
      | ok v =>
          simp only [ha] at h
          obtain ⟨st1, t1⟩ := v
          exact denseOk_runOps ops b st1 t1 st' t'
            (denseOk_applyOp b st t st1 t1 op hd ha) (by exact h)

/-- C4: for every tree reachable from a fresh root through the builder API,
every node's `is_path_all_dense` is true iff no node on its root-to-self path
(inclusive) needs activation (kind `pointer`, `hash`, `bitmasked` or
`dynamic`); it is maintained at insertion as the conjunction of the parent's
flag and the negation of the child's `need_activation()` (the definition of
`insert_children`). -/
theorem is_path_all_dense_invariant (env : List ExprData) (ops : List Op)
    (st : BuilderState) (t : SNode)
    (h : runOps (initState env) initRoot ops = Except.ok (st, t)) :
    ∀ p ∈ rootPaths t, ∀ c ∈ p.getLast?,
      c.is_path_all_dense = p.all (fun s => !s.need_activation) := by
  have hd0 : DenseOk true initRoot := by
    refine DenseOk.mk true _ [] (by decide) ?_
    intro c hc
    cases hc
  have hd := denseOk_runOps ops true (initState env) initRoot st t hd0 h
  intro p hp c hc
  have := denseOk_path t true hd p hp c hc
  simpa using this

theorem is_path_all_dense_invariant_witness :
    ∃ st t, runOps (initState []) initRoot
        [Op.insert_ch 0 SNodeType.pointer, Op.insert_ch 1 SNodeType.dense] =
        Except.ok (st, t) ∧
      ∀ p ∈ rootPaths t, ∀ c ∈ p.getLast?,
        c.is_path_all_dense = p.all (fun s => !s.need_activation) := by
  refine ⟨_, _, rfl, ?_⟩
  exact is_path_all_dense_invariant []
    [Op.insert_ch 0 SNodeType.pointer, Op.insert_ch 1 SNodeType.dense] _ _ rfl

theorem envSim_refl (st : BuilderState) : EnvSim st st :=
  ⟨rfl, fun i => ⟨rfl, rfl, rfl, fun _ h => h⟩⟩

theorem envSim_trans {s1 s2 s3 : BuilderState} (h12 : EnvSim s1 s2)
    (h23 : EnvSim s2 s3) : EnvSim s1 s3 := by
  obtain ⟨hl12, hf12⟩ := h12
  obtain ⟨hl23, hf23⟩ := h23
  refine ⟨hl23.trans hl12, fun i => ?_⟩
  obtain ⟨p12, a12, d12, m12⟩ := hf12 i
  obtain ⟨p23, a23, d23, m23⟩ := hf23 i
  exact ⟨p23.trans p12, a23.trans a12, d23.trans d12, fun k hk => m23 k (m12 k hk)⟩

theorem envSim_of_bindsOnly {st st' : BuilderState} {a : Nat}
    (h : BindsOnly st st' a) (hun : (getExpr st a).snode = none) : EnvSim st st' := by
  obtain ⟨hl, hother, hp, ha, hd, hs⟩ := h
  refine ⟨hl, fun i => ?_⟩
  by_cases hia : i = a
  · subst hia
    refine ⟨hp, ha, hd, fun k hk => ?_⟩
    rw [hun] at hk
    cases hk
  · rw [hother i hia]
    exact ⟨rfl, rfl, rfl, fun _ h => h⟩

mutual

theorem lazyGrad_of_done : ∀ (t : SNode) (st : BuilderState), GradsDone st t →
    SNode.lazy_grad st t = Except.ok (st, t)
  | SNode.mk core ch, st, hd => by
      rw [SNode.lazy_grad]
      cases hd with
      | place _ _ hty =>
          rw [if_pos hty]
          rfl
      | node _ _ hty hcol hch =>
          rw [if_neg hty]
          rw [lazyGradChildren_of_done ch st hch]
          simp only [bind, Except.bind, hcol, placeGrads, pure, Except.pure]

theorem lazyGradChildren_of_done : ∀ (l : List SNode) (st : BuilderState),
    (∀ c ∈ l, GradsDone st c) → lazyGradChildren st l = Except.ok (st, l)
  | [], st, _ => rfl
  | c :: cs, st, hl => by
      rw [lazyGradChildren]
      rw [lazyGrad_of_done c st (hl c (List.mem_cons_self c cs))]
      simp only [bind, Except.bind]
      rw [lazyGradChildren_of_done cs st (fun x hx => hl x (List.mem_cons_of_mem c hx))]
      rfl

end


theorem getExpr_primal_lt {st : BuilderState} {i : Nat}
    (h : (getExpr st i).is_primal = true) : i < st.exprs.length := by
  by_contra hge
  push_neg at hge
  rw [getExpr, List.getD_eq_getElem?_getD, List.getElem?_eq_none hge] at h
  exact Bool.noConfusion h

theorem envSim_length {st st' : BuilderState} (h : EnvSim st st') :
    st'.exprs.length = st.exprs.length := h.1

theorem is_primal_envSim {st st' : BuilderState} (h : EnvSim st st')
    (c : SNodeCore) : SNode.is_primal st' c = SNode.is_primal st c := by
  rw [SNode.is_primal, SNode.is_primal]
  cases hce : c.expr with
  | none => rfl
  | some e => simp only [(h.2 e).1]

theorem shouldCollect_false_envSim {st st' : BuilderState} {c : SNodeCore}
    (h : EnvSim st st') (hc : shouldCollect st c = Except.ok false) :
    shouldCollect st' c = Except.ok false := by
  rw [shouldCollect] at hc ⊢
  by_cases hty : c.type = SNodeType.place
  · rw [if_pos hty] at hc ⊢
    cases hce : c.expr with
    | none =>
        rw [SNode.is_primal, hce] at hc
        simp only [bind, Except.bind] at hc
        exact Except.noConfusion hc
    | some e =>
        rw [SNode.is_primal, hce] at hc ⊢
        simp only [bind, Except.bind, pure, Except.pure] at hc ⊢
        by_cases hpn : ((getExpr st e).is_primal && needs_grad c.dt) = true
        · rw [if_pos hpn] at hc
          rw [Bool.and_eq_true] at hpn
          rw [SNode.has_grad, hce] at hc
          simp only [bind, Except.bind, pure, Except.pure, SNode.is_primal, hce] at hc
          injection hc with hval
          rw [Bool.not_eq_false', hpn.1, Bool.true_and] at hval
          cases hadj : (getExpr st e).adjoint with
          | none => rw [hadj] at hval; exact Bool.noConfusion hval
          | some a =>
              rw [hadj] at hval
              have hval' : (getExpr st a).snode.isSome = true := hval
              obtain ⟨k, hsn⟩ := Option.isSome_iff_exists.mp hval'
              have hp' : (getExpr st' e).is_primal = true := (h.2 e).1.trans hpn.1
              have ha' : (getExpr st' e).adjoint = some a := (h.2 e).2.1.trans hadj
              have hs' : (getExpr st' a).snode = some k := (h.2 a).2.2.2 k hsn
              rw [if_pos (by rw [hp', hpn.2]; rfl)]
              rw [SNode.has_grad]
              simp only [hce, bind, Except.bind, pure, Except.pure, SNode.is_primal,
                hp', ha', hs', Option.isSome_some, Bool.true_and, Bool.and_self,
                Bool.not_true]
        · rw [if_neg hpn] at hc
          have hpn' : ¬((getExpr st' e).is_primal && needs_grad c.dt) = true := by
            rw [(h.2 e).1]; exact hpn
          rw [if_neg hpn']
  · rw [if_neg hty] at hc ⊢
    exact hc

theorem collectGrads_nil_envSim {st st' : BuilderState} (h : EnvSim st st') :
    ∀ l : List SNode, collectGrads st l = Except.ok [] →
      collectGrads st' l = Except.ok []
  | [], _ => rfl
  | c :: cs, hc => by
      rw [collectGrads] at hc ⊢
      cases hsc : shouldCollect st c.core with
      | error s =>
          rw [hsc] at hc
          simp only [bind, Except.bind] at hc
          exact Except.noConfusion hc
      | ok b =>
          rw [hsc] at hc
          simp only [bind, Except.bind] at hc
          cases hcs : collectGrads st cs with
          | error s =>
              rw [hcs] at hc
              simp only [bind, Except.bind] at hc
              exact Except.noConfusion hc
          | ok rest =>
              rw [hcs] at hc
              simp only [pure, Except.pure] at hc
              cases b with
              | true =>
                  rw [if_pos rfl] at hc
                  exact absurd (Except.ok.inj hc) (List.cons_ne_nil _ _)
              | false =>
                  rw [if_neg (Bool.false_ne_true)] at hc
                  have hrest : rest = [] := Except.ok.inj hc
                  subst hrest
                  rw [shouldCollect_false_envSim h hsc]
                  simp only [bind, Except.bind, collectGrads_nil_envSim h cs hcs,
                    Bool.false_eq_true, if_neg, pure, Except.pure]
                  rfl

theorem gradsDone_envSim {st st' : BuilderState} (h : EnvSim st st')
    (t : SNode) (hd : GradsDone st t) : GradsDone st' t := by
  induction hd with
  | place _ _ hty => exact GradsDone.place _ _ _ hty
  | node _ _ hty hcol hch ih =>
      exact GradsDone.node _ _ _ hty (collectGrads_nil_envSim h _ hcol) ih

theorem shouldCollect_true_elim {st : BuilderState} {c : SNodeCore}
    (h : shouldCollect st c = Except.ok true) :
    c.type = SNodeType.place ∧ ∃ e, c.expr = some e ∧
      (getExpr st e).is_primal = true ∧ needs_grad c.dt = true ∧
      ∀ a, (getExpr st e).adjoint = some a → (getExpr st a).snode = none := by
  rw [shouldCollect] at h
  by_cases hty : c.type = SNodeType.place
  · rw [if_pos hty] at h
    cases hce : c.expr with
    | none =>
        rw [SNode.is_primal, hce] at h
        simp only [bind, Except.bind] at h
        exact Except.noConfusion h
    | some e =>
        rw [SNode.is_primal, hce] at h
        simp only [bind, Except.bind, pure, Except.pure] at h
        by_cases hpn : ((getExpr st e).is_primal && needs_grad c.dt) = true
        · rw [if_pos hpn] at h
          rw [Bool.and_eq_true] at hpn
          rw [SNode.has_grad, hce] at h
          simp only [bind, Except.bind, pure, Except.pure, SNode.is_primal, hce] at h
          injection h with hval
          rw [Bool.not_eq_true', hpn.1, Bool.true_and] at hval
          refine ⟨hty, e, rfl, hpn.1, hpn.2, fun a ha => ?_⟩
          rw [ha] at hval
          have hval' : (getExpr st a).snode.isSome = false := hval
          cases hsn : (getExpr st a).snode with
          | none => rfl
          | some k => rw [hsn] at hval'; exact Bool.noConfusion hval'
        · rw [if_neg hpn] at h
          exact absurd (Except.ok.inj h) Bool.false_ne_true
  · rw [if_neg hty] at h
    exact absurd (Except.ok.inj h) Bool.false_ne_true

theorem collect_cons_decomp : ∀ (ch : List SNode) (st : BuilderState) (g : Option Nat)
    (gs : List (Option Nat)), collectGrads st ch = Except.ok (g :: gs) →
    ∃ pre c post, ch = pre ++ c :: post ∧
      collectGrads st pre = Except.ok [] ∧
      shouldCollect st c.core = Except.ok true ∧
      (match c.core.expr with
       | some e => (getExpr st e).adjoint
       | none => none) = g ∧
      collectGrads st post = Except.ok gs
  | [], st, g, gs, h => by
      rw [collectGrads] at h
      exact absurd (Except.ok.inj h).symm (List.cons_ne_nil _ _)
  | c :: cs, st, g, gs, h => by
      rw [collectGrads] at h
      cases hsc : shouldCollect st c.core with
      | error s =>
          rw [hsc] at h
          simp only [bind, Except.bind] at h
          exact Except.noConfusion h
      | ok b =>
          rw [hsc] at h
          simp only [bind, Except.bind] at h
          cases hcs : collectGrads st cs with
          | error s =>
              rw [hcs] at h
              simp only [bind, Except.bind] at h
              exact Except.noConfusion h
          | ok rest =>
              rw [hcs] at h
              simp only [pure, Except.pure] at h
              cases b with
              | true =>
                  rw [if_pos rfl] at h
                  have hinj := Except.ok.inj h
                  rw [List.cons.injEq] at hinj
                  exact ⟨[], c, cs, rfl, rfl, hsc, hinj.1, by rw [hcs, hinj.2]⟩
              | false =>
                  rw [if_neg Bool.false_ne_true] at h
                  have hrest : rest = g :: gs := Except.ok.inj h
                  obtain ⟨pre, c', post, hsplit, hpre, hc', hadj, hpost⟩ :=
                    collect_cons_decomp cs st g gs (by rw [hcs, hrest])
                  refine ⟨c :: pre, c', post, by rw [hsplit, List.cons_append], ?_, hc', hadj, hpost⟩
                  rw [collectGrads, hsc]
                  simp only [bind, Except.bind, hpre, pure, Except.pure,
                    Bool.false_eq_true, reduceIte]

theorem collectGrads_append {st : BuilderState} : ∀ (l1 : List SNode)
    {l2 : List SNode} {g1 g2 : List (Option Nat)},
    collectGrads st l1 = Except.ok g1 → collectGrads st l2 = Except.ok g2 →
    collectGrads st (l1 ++ l2) = Except.ok (g1 ++ g2)
  | [], l2, g1, g2, h1, h2 => by
      rw [collectGrads] at h1
      have : g1 = [] := (Except.ok.inj h1).symm
      subst this
      simpa using h2
  | c :: cs, l2, g1, g2, h1, h2 => by
      rw [collectGrads] at h1
      cases hsc : shouldCollect st c.core with
      | error s =>
          rw [hsc] at h1
          simp only [bind, Except.bind] at h1
          exact Except.noConfusion h1
      | ok b =>
          rw [hsc] at h1
          simp only [bind, Except.bind] at h1
          cases hcs : collectGrads st cs with
          | error s =>
              rw [hcs] at h1
              simp only [bind, Except.bind] at h1
              exact Except.noConfusion h1
          | ok rest =>
              rw [hcs] at h1
              simp only [pure, Except.pure] at h1
              have hih := collectGrads_append cs hcs h2
              rw [List.cons_append, collectGrads, hsc]
              simp only [bind, Except.bind, hih, pure, Except.pure]
              cases b with
              | true =>
                  rw [if_pos rfl] at h1 ⊢
                  rw [← Except.ok.inj h1, List.cons_append]
              | false =>
                  rw [if_neg Bool.false_ne_true] at h1 ⊢
                  rw [← Except.ok.inj h1]

theorem shouldCollect_drop_bind {st st' : BuilderState} {c : SNodeCore} {e aid : Nat}
    (hb : BindsOnly st st' aid)
    (hce : c.expr = some e) (hne : e ≠ aid)
    (hty : c.type = SNodeType.place)
    (hadj : (getExpr st e).adjoint = some aid) :
    shouldCollect st' c = Except.ok false := by
  obtain ⟨hlen, hother, hp, ha, hd, hs⟩ := hb
  have hee : getExpr st' e = getExpr st e := hother e hne
  rw [shouldCollect, if_pos hty, SNode.is_primal, hce]
  simp only [bind, Except.bind, pure, Except.pure, hee]
  by_cases hpn : ((getExpr st e).is_primal && needs_grad c.dt) = true
  · rw [if_pos hpn]
    rw [SNode.has_grad, hce]
    simp only [bind, Except.bind, pure, Except.pure, SNode.is_primal, hce, hee, hadj]
    obtain ⟨k, hk⟩ := Option.isSome_iff_exists.mp hs
    rw [Bool.and_eq_true] at hpn
    simp only [hk, Option.isSome_some, Bool.and_true, hpn.1, Bool.not_true]
  · rw [if_neg hpn]

theorem shouldCollect_true_bind {st st' : BuilderState} {c : SNodeCore} {aid : Nat}
    (hb : BindsOnly st st' aid)
    (hnp : (getExpr st aid).is_primal = false)
    (h : shouldCollect st c = Except.ok true)
    (hna : ∀ e, c.expr = some e → (getExpr st e).adjoint ≠ some aid) :
    shouldCollect st' c = Except.ok true := by
  obtain ⟨hty, e, hce, hprim, hneeds, hnone⟩ := shouldCollect_true_elim h
  obtain ⟨hlen, hother, hp, ha, hd, hs⟩ := hb
  have hne : e ≠ aid := fun hx => by rw [hx, hnp] at hprim; exact Bool.noConfusion hprim
  have hee : getExpr st' e = getExpr st e := hother e hne
  rw [shouldCollect, if_pos hty, SNode.is_primal, hce]
  simp only [bind, Except.bind, pure, Except.pure, hee]
  rw [if_pos (by rw [hprim, hneeds]; rfl)]
  rw [SNode.has_grad, hce]
  simp only [bind, Except.bind, pure, Except.pure, SNode.is_primal, hce, hee, hprim,
    Bool.true_and]
  cases hadj : (getExpr st e).adjoint with
  | none => rfl
  | some a =>
      have hane : a ≠ aid := fun hx => hna e hce (by rw [hadj, hx])
      have haa : getExpr st' a = getExpr st a := hother a hane
      simp only [haa, hnone a hadj, Option.isSome_none, Bool.not_false]

theorem collect_pres_bind {st st' : BuilderState} {aid : Nat}
    (hb : BindsOnly st st' aid)
    (hun : (getExpr st aid).snode = none)
    (hnp : (getExpr st aid).is_primal = false) :
    ∀ (l : List SNode) (gs : List (Option Nat)),
      collectGrads st l = Except.ok gs → some aid ∉ gs →
      collectGrads st' l = Except.ok gs
  | [], gs, h, _ => by
      rw [collectGrads] at h ⊢
      exact h
  | c :: cs, gs, h, hnotin => by
      rw [collectGrads] at h
      cases hsc : shouldCollect st c.core with
      | error s =>
          rw [hsc] at h
          simp only [bind, Except.bind] at h
          exact Except.noConfusion h
      | ok b =>
          rw [hsc] at h
          simp only [bind, Except.bind] at h
          cases hcs : collectGrads st cs with
          | error s =>
              rw [hcs] at h
              simp only [bind, Except.bind] at h
              exact Except.noConfusion h
          | ok rest =>
              rw [hcs] at h
              simp only [pure, Except.pure] at h
              cases b with
              | false =>
                  rw [if_neg Bool.false_ne_true] at h
                  have hrest : rest = gs := Except.ok.inj h
                  subst hrest
                  rw [collectGrads,
                    shouldCollect_false_envSim (envSim_of_bindsOnly hb hun) hsc]
                  simp only [bind, Except.bind,
                    collect_pres_bind hb hun hnp cs rest hcs hnotin, pure,
                    Except.pure, Bool.false_eq_true, reduceIte]
              | true =>
                  rw [if_pos rfl] at h
                  have hinj := Except.ok.inj h
                  subst hinj
                  have hhead : (match c.core.expr with
                      | some e => (getExpr st e).adjoint
                      | none => none) ≠ some aid := fun hx => hnotin (by rw [← hx]; exact List.mem_cons_self _ _)
                  have htail : some aid ∉ rest := fun hx => hnotin (List.mem_cons_of_mem _ hx)
                  have hna : ∀ e, c.core.expr = some e → (getExpr st e).adjoint ≠ some aid := by
                    intro e hce hx
                    rw [hce] at hhead
                    exact hhead hx
                  rw [collectGrads, shouldCollect_true_bind hb hnp hsc hna]
                  simp only [bind, Except.bind,
                    collect_pres_bind hb hun hnp cs rest hcs htail, pure, Except.pure,
                    reduceIte]
                  obtain ⟨hty, e, hce, hprim2, _, _⟩ := shouldCollect_true_elim hsc
                  have hne : e ≠ aid := fun hx => by
                    rw [hx, hnp] at hprim2
                    exact Bool.noConfusion hprim2
                  simp only [hce, hb.2.1 e hne]

theorem place_exp_step_exprs {st : BuilderState} {node : SNode} {expr : ExprData}
    {stE : BuilderState} {nodeE : SNode} {nes : Option Nat}
    (h : place_exp_step st node expr = Except.ok (stE, nodeE, nes)) :
    stE.exprs = st.exprs := by
  rw [place_exp_step.eq_def] at h
  cases hexp : getExponentType expr.dt with
  | none =>
      rw [hexp] at h
      injection h with hp
      rw [Prod.mk.injEq] at hp
      rw [← hp.1]
  | some exp =>
      simp only [hexp] at h
      by_cases hc : (st.placing_shared_exp && st.currently_placing_exp_snode.isSome) = true
      · rw [if_pos hc] at h
        by_cases hd : (st.currently_placing_exp_snode_dtype != some exp) = true
        · rw [if_pos hd] at h
          exact Except.noConfusion h
        · rw [if_neg hd] at h
          injection h with hp
          rw [Prod.mk.injEq] at hp
          rw [← hp.1]
      · rw [if_neg hc] at h
        simp only [SNode.insert_children, bind, Except.bind, pure, Except.pure,
          reduceCtorEq, reduceIte] at h
        by_cases hps : st.placing_shared_exp = true
        · simp only [hps, if_true] at h
          injection h with hp
          rw [Prod.mk.injEq] at hp
          rw [← hp.1]
        · simp only [hps, Bool.false_eq_true, if_false] at h
          injection h with hp
          rw [Prod.mk.injEq] at hp
          rw [← hp.1]

theorem place_value_step_exprs {st : BuilderState} {node : SNode} {e : Nat}
    {expr : ExprData} {nes : Option Nat} {off : List Int} {st' : BuilderState}
    {t' : SNode} (h : place_value_step st node e expr nes off = Except.ok (st', t')) :
    ∃ nid, st'.exprs = st.exprs.set e { getExpr st e with snode := some nid } := by
  rw [place_value_step] at h
  simp only [SNode.insert_children, bind, Except.bind, pure, Except.pure,
    reduceCtorEq, reduceIte] at h
  cases nes with
  | none =>
      by_cases hoff : off.isEmpty = true
      · rw [hoff] at h
        simp only [Bool.not_true, Bool.false_eq_true, if_false, reduceIte] at h
        injection h with hpair
        rw [Prod.mk.injEq] at hpair
        refine ⟨(SNodeCore.new st.counter (node.core.depth + 1) SNodeType.place).id, ?_⟩
        rw [← hpair.1]
        rfl
      · have hoff' : off.isEmpty = false := Bool.eq_false_iff.mpr hoff
        rw [hoff'] at h
        simp only [Bool.not_false, if_true] at h
        split at h
        · exact Except.noConfusion h
        · injection h with hpair
          rw [Prod.mk.injEq] at hpair
          refine ⟨(SNodeCore.new st.counter (node.core.depth + 1) SNodeType.place).id, ?_⟩
          rw [← hpair.1]
          rfl
  | some k =>
      by_cases hoff : off.isEmpty = true
      · rw [hoff] at h
        simp only [Bool.not_true, Bool.false_eq_true, if_false, reduceIte] at h
        injection h with hpair
        rw [Prod.mk.injEq] at hpair
        refine ⟨(SNodeCore.new st.counter (node.core.depth + 1) SNodeType.place).id, ?_⟩
        rw [← hpair.1]
        rfl
      · have hoff' : off.isEmpty = false := Bool.eq_false_iff.mpr hoff
        rw [hoff'] at h
        simp only [Bool.not_false, if_true] at h
        split at h
        · exact Except.noConfusion h
        · injection h with hpair
          rw [Prod.mk.injEq] at hpair
          refine ⟨(SNodeCore.new st.counter (node.core.depth + 1) SNodeType.place).id, ?_⟩
          rw [← hpair.1]
          rfl

theorem place_inner_exprs {st : BuilderState} {core : SNodeCore} {ch : List SNode}
    {e : Nat} {off : List Int} {st' : BuilderState} {t' : SNode}
    (h : SNode.place_inner st (SNode.mk core ch) (some e) off = Except.ok (st', t')) :
    (getExpr st e).snode = none ∧
    ∃ nid, st'.exprs = st.exprs.set e { getExpr st e with snode := some nid } := by
  rw [SNode.place_inner] at h
  simp only [bind, Except.bind] at h
  cases hsn : (getExpr st e).snode with
  | some k =>
      rw [hsn] at h
      simp only [Option.isSome_some, if_true] at h
      exact Except.noConfusion h
  | none =>
      rw [hsn] at h
      simp only [Option.isSome_none, Bool.false_eq_true, if_false, reduceIte] at h
      refine ⟨rfl, ?_⟩
      cases hcl : place_exp_step st (SNode.mk core ch) (getExpr st e) with
      | error s =>
          rw [hcl] at h
          exact Except.noConfusion h
      | ok trip =>
          obtain ⟨stE, nodeE, nes⟩ := trip
          rw [hcl] at h
          obtain ⟨nid, hset⟩ := place_value_step_exprs h
          have hE : stE.exprs = st.exprs := place_exp_step_exprs hcl
          have hge : getExpr stE e = getExpr st e := by rw [getExpr, getExpr, hE]
          refine ⟨nid, ?_⟩
          rw [hset, hE, hge]

theorem place_none_error {st : BuilderState} {t : SNode} {off : List Int}
    {r : BuilderState × SNode} : SNode.place st t none off ≠ Except.ok r := by
  intro h
  obtain ⟨core, ch⟩ := t
  rw [SNode.place] at h
  simp only [bind, Except.bind, SNode.core, SNode.ch] at h
  by_cases hroot : core.type = SNodeType.root
  · rw [if_pos hroot] at h
    rw [SNode.dense, create_node_ok st (SNode.mk core ch) [] [] SNodeType.dense
      (Or.inl rfl) (fun s hs => absurd hs (List.not_mem_nil s)) (by decide)
      (fun hx => absurd hx (by decide))] at h
    simp only [List.getLast?_concat, SNode.place_inner, bind, Except.bind] at h
    exact Except.noConfusion h
  · rw [if_neg hroot] at h
    simp only [SNode.place_inner, bind, Except.bind] at h
    exact Except.noConfusion h

theorem place_exprs {st : BuilderState} {t : SNode} {e : Nat} {off : List Int}
    {st' : BuilderState} {t' : SNode}
    (h : SNode.place st t (some e) off = Except.ok (st', t')) :
    (getExpr st e).snode = none ∧
    ∃ nid, st'.exprs = st.exprs.set e { getExpr st e with snode := some nid } := by
  obtain ⟨core, ch⟩ := t
  rw [SNode.place] at h
  simp only [bind, Except.bind, SNode.core, SNode.ch] at h
  by_cases hroot : core.type = SNodeType.root
  · rw [if_pos hroot] at h
    rw [SNode.dense, create_node_ok st (SNode.mk core ch) [] [] SNodeType.dense
      (Or.inl rfl) (fun s hs => absurd hs (List.not_mem_nil s)) (by decide)
      (fun hx => absurd hx (by decide))] at h
    simp only [List.getLast?_concat, SNode.core, SNode.ch] at h
    cases hpi : SNode.place_inner { st with counter := st.counter + 1 }
        (SNode.mk (newChildCore st (SNode.mk core ch) [] [] SNodeType.dense) [])
        (some e) off with
    | error s =>
        rw [hpi] at h
        exact Except.noConfusion h
    | ok p =>
        obtain ⟨st2, c2⟩ := p
        rw [hpi] at h
        obtain ⟨hnone, nid, hset⟩ := place_inner_exprs hpi
        injection h with hpair
        rw [Prod.mk.injEq] at hpair
        refine ⟨hnone, nid, ?_⟩
        rw [← hpair.1]
        exact hset
  · rw [if_neg hroot] at h
    exact place_inner_exprs h

theorem place_mono {st : BuilderState} {t : SNode} {g : Option Nat} {off : List Int}
    {st' : BuilderState} {t' : SNode}
    (h : SNode.place st t g off = Except.ok (st', t'))
    {i k : Nat} (hb : (getExpr st i).snode = some k) :
    (getExpr st' i).snode = some k := by
  cases g with
  | none => exact absurd h place_none_error
  | some e =>
      obtain ⟨hnone, nid, hset⟩ := place_exprs h
      have hne : e ≠ i := fun hx => by rw [← hx, hnone] at hb; exact Option.noConfusion hb
      rw [getExpr, hset, getD_set_ne _ _ hne]
      exact hb

theorem placeGrads_bound_fail {aid : Nat} : ∀ (gs : List (Option Nat))
    (st : BuilderState) (t : SNode) (k : Nat), (getExpr st aid).snode = some k →
    some aid ∈ gs → ∀ r, placeGrads st t gs ≠ Except.ok r
  | [], _, _, _, _, hmem, _ => absurd hmem (List.not_mem_nil _)
  | g :: gs, st, t, k, hb, hmem, r => by
      rw [placeGrads]
      simp only [bind, Except.bind]
      intro h
      cases hpl : SNode.place st t g [] with
      | error s =>
          rw [hpl] at h
          exact Except.noConfusion h
      | ok p =>
          obtain ⟨stN, tN⟩ := p
          rw [hpl] at h
          rcases List.mem_cons.mp hmem with hg | hg
          · rw [← hg] at hpl
            obtain ⟨hnone, -⟩ := place_exprs hpl
            rw [hnone] at hb
            exact Option.noConfusion hb
          · exact placeGrads_bound_fail gs stN tN k (place_mono hpl hb) hg r h

theorem modifyLastChild_append (core : SNodeCore) (ch : List SNode) (lc : SNodeCore)
    (lch : List SNode) (f : SNodeCore → SNodeCore) :
    SNode.modifyLastChild (SNode.mk core (ch ++ [SNode.mk lc lch])) f
      = SNode.mk core (ch ++ [SNode.mk (f lc) lch]) := by
  simp only [SNode.modifyLastChild, List.getLast?_concat, List.dropLast_concat]

theorem placing_setSNodeBinding (st : BuilderState) (e n : Nat) :
    (setSNodeBinding st e n).placing_shared_exp = st.placing_shared_exp := rfl

theorem bindsOnly_setSNodeBinding (st : BuilderState) (c aid nid : Nat)
    (h : aid < st.exprs.length) :
    BindsOnly st (setSNodeBinding { st with counter := c } aid nid) aid := by
  have heq : getExpr (setSNodeBinding { st with counter := c } aid nid) aid
      = { getExpr st aid with snode := some nid } := by
    show (st.exprs.set aid _).getD aid default = _
    exact getD_set_eq_of_lt _ _ h
  refine ⟨?_, fun i hi => ?_, ?_, ?_, ?_, ?_⟩
  · show (st.exprs.set aid _).length = st.exprs.length
    simp
  · show (st.exprs.set aid _).getD i default = st.exprs.getD i default
    exact getD_set_ne _ _ (fun hx => hi hx.symm)
  · rw [heq]
  · rw [heq]
  · rw [heq]
  · rw [heq]
    rfl

theorem place_inner_shape {st : BuilderState} {core : SNodeCore} {ch : List SNode}
    {aid : Nat} {st' : BuilderState} {t' : SNode}
    (hexp : getExponentType (getExpr st aid).dt = none)
    (h : SNode.place_inner st (SNode.mk core ch) (some aid) [] = Except.ok (st', t')) :
    st' = setSNodeBinding { st with counter := st.counter + 1 } aid st.counter ∧
    ∃ K : SNodeCore, t' = SNode.mk core (ch ++ [SNode.mk K []]) ∧
      K.type = SNodeType.place ∧ K.expr = some aid := by
  rw [SNode.place_inner] at h
  simp only [bind, Except.bind] at h
  cases hsn : (getExpr st aid).snode with
  | some k =>
      rw [hsn] at h
      simp only [Option.isSome_some, if_true] at h
      exact Except.noConfusion h
  | none =>
      rw [hsn] at h
      simp only [Option.isSome_none, Bool.false_eq_true, if_false, reduceIte] at h
      rw [place_exp_step.eq_def, hexp] at h
      simp only [bind, Except.bind] at h
      rw [place_value_step] at h
      by_cases hamb : (getExpr st aid).has_ambient = true
      · by_cases hsh : st.placing_shared_exp = true
        · simp only [SNode.insert_children, bind, Except.bind, pure, Except.pure,
            reduceCtorEq, reduceIte, SNode.core, SNode.ch, modifyLastChild_append,
            placing_setSNodeBinding, hamb, hsh, if_true, List.isEmpty_nil,
            Bool.not_true, Bool.false_eq_true, if_false] at h
          injection h with hpair
          rw [Prod.mk.injEq] at hpair
          refine ⟨?_, _, hpair.2.symm, rfl, rfl⟩
          rw [← hpair.1, hsh]
          rfl
        · simp only [SNode.insert_children, bind, Except.bind, pure, Except.pure,
            reduceCtorEq, reduceIte, SNode.core, SNode.ch, modifyLastChild_append,
            placing_setSNodeBinding, hamb, hsh, if_true, Bool.false_eq_true, if_false,
            List.isEmpty_nil, Bool.not_true] at h
          injection h with hpair
          rw [Prod.mk.injEq] at hpair
          have hsh' : st.placing_shared_exp = false := Bool.eq_false_iff.mpr hsh
          refine ⟨?_, _, hpair.2.symm, rfl, rfl⟩
          rw [← hpair.1, hsh']
          rfl
      · by_cases hsh : st.placing_shared_exp = true
        · simp only [SNode.insert_children, bind, Except.bind, pure, Except.pure,
            reduceCtorEq, reduceIte, SNode.core, SNode.ch, modifyLastChild_append,
            placing_setSNodeBinding, hamb, hsh, if_true, Bool.false_eq_true, if_false,
            List.isEmpty_nil, Bool.not_true] at h
          injection h with hpair
          rw [Prod.mk.injEq] at hpair
          refine ⟨?_, _, hpair.2.symm, rfl, rfl⟩
          rw [← hpair.1, hsh]
          rfl
        · simp only [SNode.insert_children, bind, Except.bind, pure, Except.pure,
            reduceCtorEq, reduceIte, SNode.core, SNode.ch, modifyLastChild_append,
            placing_setSNodeBinding, hamb, hsh, Bool.false_eq_true, if_false,
            List.isEmpty_nil, Bool.not_true] at h
          injection h with hpair
          rw [Prod.mk.injEq] at hpair
          have hsh' : st.placing_shared_exp = false := Bool.eq_false_iff.mpr hsh
          refine ⟨?_, _, hpair.2.symm, rfl, rfl⟩
          rw [← hpair.1, hsh']
          rfl

theorem place_shape {st : BuilderState} {core : SNodeCore} {ch : List SNode}
    {aid : Nat} {st' : BuilderState} {t' : SNode}
    (haid : aid < st.exprs.length)
    (hexp : getExponentType (getExpr st aid).dt = none)
    (h : SNode.place st (SNode.mk core ch) (some aid) [] = Except.ok (st', t')) :
    (getExpr st aid).snode = none ∧ BindsOnly st st' aid ∧
    ∃ kid : SNode, t' = SNode.mk core (ch ++ [kid]) ∧
      ((kid.core.type = SNodeType.place ∧ kid.core.expr = some aid ∧ kid.ch = []) ∨
       (kid.core.type ≠ SNodeType.place ∧
        ∃ K : SNodeCore, kid.ch = [SNode.mk K []] ∧ K.type = SNodeType.place ∧
          K.expr = some aid)) := by
  have h0 := h
  obtain ⟨hnone, -⟩ := place_exprs h0
  refine ⟨hnone, ?_⟩
  rw [SNode.place] at h
  simp only [bind, Except.bind, SNode.core, SNode.ch] at h
  by_cases hroot : core.type = SNodeType.root
  · rw [if_pos hroot] at h
    rw [SNode.dense, create_node_ok st (SNode.mk core ch) [] [] SNodeType.dense
      (Or.inl rfl) (fun s hs => absurd hs (List.not_mem_nil s)) (by decide)
      (fun hx => absurd hx (by decide))] at h
    simp only [List.getLast?_concat, SNode.core, SNode.ch] at h
    cases hpi : SNode.place_inner { st with counter := st.counter + 1 }
        (SNode.mk (newChildCore st (SNode.mk core ch) [] [] SNodeType.dense) [])
        (some aid) [] with
    | error s =>
        rw [hpi] at h
        exact Except.noConfusion h
    | ok p =>
        obtain ⟨st2, c2⟩ := p
        rw [hpi] at h
        injection h with hpair
        rw [Prod.mk.injEq] at hpair
        have hexp1 : getExponentType
            (getExpr { st with counter := st.counter + 1 } aid).dt = none := hexp
        obtain ⟨hst2, K, hc2, hKty, hKe⟩ := place_inner_shape hexp1 hpi
        constructor
        · rw [← hpair.1, hst2]
          exact bindsOnly_setSNodeBinding st (st.counter + 1 + 1) aid (st.counter + 1)
            haid
        · refine ⟨c2, ?_, Or.inr ⟨?_, K, ?_, hKty, hKe⟩⟩
          · rw [← hpair.2, List.dropLast_concat]
          · rw [hc2]
            exact (by decide : ¬SNodeType.dense = SNodeType.place)
          · rw [hc2]
            rfl
  · rw [if_neg hroot] at h
    obtain ⟨hst', K, ht', hKty, hKe⟩ := place_inner_shape hexp h
    constructor
    · rw [hst']
      exact bindsOnly_setSNodeBinding st (st.counter + 1) aid st.counter haid
    · exact ⟨SNode.mk K [], ht', Or.inl ⟨hKty, hKe, rfl⟩⟩

theorem shouldCollect_nonplace {st : BuilderState} {c : SNodeCore}
    (h : c.type ≠ SNodeType.place) : shouldCollect st c = Except.ok false := by
  rw [shouldCollect, if_neg h]
  rfl

theorem shouldCollect_nonprimal {st : BuilderState} {c : SNodeCore} {a : Nat}
    (hty : c.type = SNodeType.place) (hce : c.expr = some a)
    (hnp : (getExpr st a).is_primal = false) : shouldCollect st c = Except.ok false := by
  rw [shouldCollect, if_pos hty, SNode.is_primal, hce]
  simp only [bind, Except.bind, pure, Except.pure, hnp, Bool.false_and,
    Bool.false_eq_true, if_false, reduceIte]

theorem collectGrads_cons_false {st : BuilderState} {c : SNode} {l : List SNode}
    {gs : List (Option Nat)} (hc : shouldCollect st c.core = Except.ok false)
    (hl : collectGrads st l = Except.ok gs) : collectGrads st (c :: l) = Except.ok gs := by
  rw [collectGrads, hc]
  simp only [bind, Except.bind, hl, pure, Except.pure, Bool.false_eq_true, reduceIte]

theorem envOk_adjoint {st : BuilderState} {e a : Nat} (henv : envOkB st = true)
    (he : e < st.exprs.length) (ha : (getExpr st e).adjoint = some a) :
    a < st.exprs.length ∧ (getExpr st a).is_primal = false ∧
      getExponentType (getExpr st a).dt = none := by
  rw [envOkB, List.all_eq_true] at henv
  have hmem : getExpr st e ∈ st.exprs := by
    rw [getExpr, List.getD_eq_getElem?_getD, List.getElem?_eq_getElem he]
    exact List.getElem_mem he
  have hp := henv _ hmem
  rw [ha] at hp
  simp only [Bool.and_eq_true, decide_eq_true_eq, Bool.not_eq_true',
    Option.isNone_iff_eq_none] at hp
  exact ⟨hp.1.1, hp.1.2, hp.2⟩

theorem envOkB_envSim {st st' : BuilderState} (h : EnvSim st st')
    (henv : envOkB st = true) : envOkB st' = true := by
  rw [envOkB, List.all_eq_true]
  intro x hx
  obtain ⟨i, hi, hxi⟩ := List.mem_iff_getElem.mp hx
  have hxe : x = getExpr st' i := by
    rw [getExpr, List.getD_eq_getElem?_getD, List.getElem?_eq_getElem hi, hxi]
    rfl
  subst hxe
  cases hadj : (getExpr st' i).adjoint with
  | none => rfl
  | some a =>
      have hadj0 : (getExpr st i).adjoint = some a := by rw [← (h.2 i).2.1, hadj]
      have hie : i < st.exprs.length := by rw [← h.1]; exact hi
      obtain ⟨h1, h2, h3⟩ := envOk_adjoint henv hie hadj0
      simp only [Bool.and_eq_true, decide_eq_true_eq, Bool.not_eq_true',
        Option.isNone_iff_eq_none]
      refine ⟨⟨?_, ?_⟩, ?_⟩
      · rw [h.1]
        exact h1
      · rw [(h.2 a).1]
        exact h2
      · rw [(h.2 a).2.2.1]
        exact h3

theorem placeGrads_preserves : ∀ (gs : List (Option Nat)) (st : BuilderState)
    (core : SNodeCore) (ch : List SNode) (st' : BuilderState) (t' : SNode),
    placeGrads st (SNode.mk core ch) gs = Except.ok (st', t') →
    envOkB st = true →
    collectGrads st ch = Except.ok gs →
    (∀ c ∈ ch, GradsDone st c) →
    core.type ≠ SNodeType.place →
    GradsDone st' t' ∧ EnvSim st st' ∧ envOkB st' = true
  | [], st, core, ch, st', t', h, henv, hcol, hdone, hty => by
      rw [placeGrads] at h
      injection h with hpair
      rw [Prod.mk.injEq] at hpair
      rw [← hpair.1, ← hpair.2]
      exact ⟨GradsDone.node st core ch hty hcol hdone, envSim_refl st, henv⟩
  | g :: gs, st, core, ch, st', t', h, henv, hcol, hdone, hty => by
      rw [placeGrads] at h
      simp only [bind, Except.bind] at h
      cases hpl : SNode.place st (SNode.mk core ch) g [] with
      | error s =>
          rw [hpl] at h
          exact Except.noConfusion h
      | ok p =>
          obtain ⟨stN, tN⟩ := p
          rw [hpl] at h
          obtain ⟨pre, cstar, post, hsplit, hpre, hsc, hcontrib, hpost⟩ :=
            collect_cons_decomp ch st g gs hcol
          obtain ⟨hcty, e, hce, hprim, hneeds, hunb⟩ := shouldCollect_true_elim hsc
          have helt : e < st.exprs.length := getExpr_primal_lt hprim
          have hgadj : (getExpr st e).adjoint = g := by
            rw [← hcontrib, hce]
          cases hg : (getExpr st e).adjoint with
          | none =>
              rw [hg] at hgadj
              rw [← hgadj] at hpl
              exact absurd hpl place_none_error
          | some aid =>
              rw [hg] at hgadj
              obtain ⟨halen, hnp, hexpfree⟩ := envOk_adjoint henv helt hg
              rw [← hgadj] at hpl
              obtain ⟨hunbound, hbind, kid, htN, hkid⟩ := place_shape halen hexpfree hpl
              have hsim : EnvSim st stN := envSim_of_bindsOnly hbind hunbound
              have hne : e ≠ aid := fun hx => by
                rw [hx, hnp] at hprim
                exact Bool.noConfusion hprim
              by_cases hmem : some aid ∈ gs
              · obtain ⟨k', hk'⟩ :=
                  Option.isSome_iff_exists.mp hbind.2.2.2.2.2
                exact absurd h (placeGrads_bound_fail gs stN tN k' hk' hmem (st', t'))
              · have hprimN : (getExpr stN aid).is_primal = false :=
                  hbind.2.2.1.trans hnp
                have hkidcol : shouldCollect stN kid.core = Except.ok false := by
                  rcases hkid with ⟨hkty, hke, hkch⟩ | ⟨hkty, K, hkch, hKty, hKe⟩
                  · exact shouldCollect_nonprimal hkty hke hprimN
                  · exact shouldCollect_nonplace hkty
                have hkiddone : GradsDone stN kid := by
                  obtain ⟨kc, kch⟩ := kid
                  rcases hkid with ⟨hkty, hke, hkch⟩ | ⟨hkty, K, hkch, hKty, hKe⟩
                  · exact GradsDone.place stN kc kch (by simpa using hkty)
                  · simp only [SNode.ch] at hkch
                    rw [hkch]
                    refine GradsDone.node stN kc [SNode.mk K []] (by simpa using hkty)
                      (collectGrads_cons_false (shouldCollect_nonprimal hKty hKe hprimN)
                        rfl) ?_
                    intro x hx
                    rw [List.mem_singleton.mp hx]
                    exact GradsDone.place stN K [] hKty
                have hcolN : collectGrads stN (ch ++ [kid]) = Except.ok gs := by
                  rw [hsplit, List.append_assoc, List.cons_append]
                  refine collectGrads_append pre (collectGrads_nil_envSim hsim pre hpre)
                    (collectGrads_cons_false
                      (shouldCollect_drop_bind hbind hce hne hcty hg) ?_)
                  have happ := collectGrads_append post
                    (collect_pres_bind hbind hunbound hnp post gs hpost hmem)
                    (collectGrads_cons_false hkidcol (rfl : collectGrads stN [] = Except.ok []))
                  simpa using happ
                have hdoneN : ∀ c ∈ ch ++ [kid], GradsDone stN c := by
                  intro x hx
                  rcases List.mem_append.mp hx with hx | hx
                  · exact gradsDone_envSim hsim x (hdone x hx)
                  · rw [List.mem_singleton.mp hx]
                    exact hkiddone
                have henvN : envOkB stN = true := envOkB_envSim hsim henv
                rw [htN] at h
                obtain ⟨hgd, hsim2, henv2⟩ := placeGrads_preserves gs stN core
                  (ch ++ [kid]) st' t' h henvN hcolN hdoneN hty
                exact ⟨hgd, envSim_trans hsim hsim2, henv2⟩

mutual

theorem lazyGrad_establishes : ∀ (t : SNode) (st st' : BuilderState) (t' : SNode),
    SNode.lazy_grad st t = Except.ok (st', t') → envOkB st = true →
    GradsDone st' t' ∧ EnvSim st st' ∧ envOkB st' = true
  | SNode.mk core ch, st, st', t', h, henv => by
      rw [SNode.lazy_grad] at h
      by_cases hty : core.type = SNodeType.place
      · rw [if_pos hty] at h
        simp only [pure, Except.pure, Except.ok.injEq, Prod.mk.injEq] at h
        obtain ⟨h1, h2⟩ := h
        rw [← h1, ← h2]
        exact ⟨GradsDone.place st core ch hty, envSim_refl st, henv⟩
      · rw [if_neg hty] at h
        simp only [bind, Except.bind] at h
        cases hlc : lazyGradChildren st ch with
        | error err =>
            simp only [hlc] at h
            exact Except.noConfusion h
        | ok v =>
            simp only [hlc] at h
            obtain ⟨st1, ch1⟩ := v
            obtain ⟨hdone1, hsim1, henv1⟩ :=
              lazyGradChildren_establishes ch st st1 ch1 hlc henv
            cases hcg : collectGrads st1 ch1 with
            | error err =>
                simp only [hcg] at h
                injection h
            | ok gs =>
                simp only [hcg] at h
                obtain ⟨hgd, hsim2, henv2⟩ := placeGrads_preserves gs st1 core ch1
                  st' t' (by exact h) henv1 hcg hdone1 hty
                exact ⟨hgd, envSim_trans hsim1 hsim2, henv2⟩

theorem lazyGradChildren_establishes : ∀ (l : List SNode) (st st' : BuilderState)
    (l' : List SNode), lazyGradChildren st l = Except.ok (st', l') →
    envOkB st = true →
    (∀ c ∈ l', GradsDone st' c) ∧ EnvSim st st' ∧ envOkB st' = true
  | [], st, st', l', h, henv => by
      simp only [lazyGradChildren, pure, Except.pure, Except.ok.injEq,
        Prod.mk.injEq] at h
      obtain ⟨h1, h2⟩ := h
      rw [← h1, ← h2]
      exact ⟨fun c hc => absurd hc (List.not_mem_nil c), envSim_refl st, henv⟩
  | c :: cs, st, st', l', h, henv => by
      simp only [lazyGradChildren, bind, Except.bind] at h
      cases hg : SNode.lazy_grad st c with
      | error err =>
          simp only [hg] at h
          exact Except.noConfusion h
      | ok v =>
          simp only [hg] at h
          obtain ⟨st1, c1⟩ := v
          cases hcs : lazyGradChildren st1 cs with
          | error err =>
              simp only [hcs] at h
              exact Except.noConfusion h
          | ok v2 =>
              simp only [hcs, pure, Except.pure, Except.ok.injEq, Prod.mk.injEq] at h
              obtain ⟨st2, cs1⟩ := v2
              obtain ⟨h1, h2⟩ := h
              obtain ⟨hd1, hs1, he1⟩ := lazyGrad_establishes c st st1 c1 hg henv
              obtain ⟨hd2, hs2, he2⟩ :=
                lazyGradChildren_establishes cs st1 st2 cs1 hcs he1
              rw [← h1, ← h2]
              refine ⟨?_, envSim_trans hs1 hs2, he2⟩
              intro x hx
              rcases List.mem_cons.mp hx with hx | hx
              · rw [hx]
                exact gradsDone_envSim hs2 c1 hd1
              · exact hd2 x hx

end

/-- C3: `lazy_grad` is idempotent: under the field-layer environment invariant
(`envOkB`, adjoints are valid non-primal exponent-free references), a second
invocation of `lazy_grad` on the state and tree produced by a successful first
invocation returns them unchanged — no additional gradient leaves are created,
because every primal `place` leaf whose adjoint was placed by the first
invocation then satisfies `has_grad` (its adjoint expression is bound). -/
theorem lazy_grad_idempotent (st st' : BuilderState) (t t' : SNode)
    (henv : envOkB st = true)
    (h : SNode.lazy_grad st t = Except.ok (st', t')) :
    SNode.lazy_grad st' t' = Except.ok (st', t') :=
  lazyGrad_of_done t' st' (lazyGrad_establishes t st st' t' h henv).1

theorem lazy_grad_idempotent_witness :
    envOkB stG = true ∧ ∃ st' t',
      SNode.lazy_grad stG treeG = Except.ok (st', t') ∧
      SNode.lazy_grad st' t' = Except.ok (st', t') := by
  refine ⟨rfl, _, _, rfl, ?_⟩
  exact lazy_grad_idempotent stG _ treeG _ rfl rfl

end Taichi
